import Mathlib

/-!
Verification of the catering-order-manager menu-extraction pipeline.

This file gives a shallow embedding, in Lean 4, of the pure inference
functions of the two `MenuPDFParser` implementations found in the repository
(the heuristic parser, called `V5` below, and the optimization-driven parser,
called `V6` below), and proves or refutes the specification claims about
them.

Modelling conventions:
* JavaScript strings are modelled as `List Char`; JavaScript numbers as `ℚ`
  (all arithmetic appearing in the modelled functions is exact on the
  rationals).
* Regular-expression tests used by the source are compiled by hand into
  executable boolean functions on `List Char`; each such function is named
  after the regex it decides and is commented with the regex source.
* External effects (PDF rendering, thumbnail capture) are modelled as
  function parameters (`Option`-valued oracles); a `none` result models a
  failed/absent thumbnail, matching the source which catches the error and
  returns `undefined`.
* The provenance metadata object (`extractionMetadata`) attached to items by
  the V6 parser is not modelled: no modelled computation ever reads it.
-/

/-- Shorthand: the character list of a string literal. -/
def str (s : String) : List Char := s.toList

/-- The apostrophe character (U+0027), written by code point. -/
def apos : Char := Char.ofNat 39

/-- JavaScript word characters `[A-Za-z0-9_]`, the `\w` class used by `\b`. -/
def isWordChar (c : Char) : Bool :=
  (Char.ofNat 97 ≤ c && c ≤ Char.ofNat 122) ||
  (Char.ofNat 65 ≤ c && c ≤ Char.ofNat 90) ||
  c.isDigit || c = Char.ofNat 95

/-- Lowercase every character (JavaScript `toLowerCase` on ASCII text). -/
def toLowerList (s : List Char) : List Char := s.map Char.toLower

/-- Drop leading whitespace. -/
def trimLeft (s : List Char) : List Char := s.dropWhile Char.isWhitespace

/-- JavaScript `String.prototype.trim`. -/
def trimStr (s : List Char) : List Char :=
  (trimLeft ((trimLeft s.reverse)).reverse)

/-- Boolean prefix test on character lists. -/
def isPrefixB : List Char → List Char → Bool
  | [], _ => true
  | _ :: _, [] => false
  | a :: as, b :: bs => a = b && isPrefixB as bs

/-- Boolean substring test: JavaScript `String.prototype.includes`. -/
def containsSub (pat : List Char) : List Char → Bool
  | [] => isPrefixB pat []
  | c :: rest => isPrefixB pat (c :: rest) || containsSub pat rest

/-- Split off the maximal leading digit run. -/
def spanDigits (s : List Char) : List Char × List Char :=
  (s.takeWhile Char.isDigit, s.dropWhile Char.isDigit)

/-- Numeric value of a digit list (most significant first). -/
def natOfDigits : List Char → ℕ
  | [] => 0
  | c :: rest => natOfDigits rest + c.toNat.sub 48 * 10 ^ rest.length

/-- JavaScript `parseFloat` on a string of shape `digits (. digits*)?`,
    exactly the shapes the modelled regex captures produce. -/
def ratOfParts (intPart fracPart : List Char) : ℚ :=
  (natOfDigits intPart : ℚ) + (natOfDigits fracPart : ℚ) / 10 ^ fracPart.length

/-- Test for the unanchored regex `\$\d+\.?\d*`: a dollar sign immediately
    followed by at least one digit occurs somewhere in the string. -/
def hasDollarPrice : List Char → Bool
  | [] => false
  | c :: rest =>
    (c = '$' && (match rest with
                 | [] => false
                 | d :: _ => d.isDigit)) || hasDollarPrice rest

/-- First match of `\$(\d+\.?\d*)`, returning `parseFloat` of the capture
    (the digits, an optional dot, and any further digits after the dollar
    sign), scanning left to right as a regex engine does. -/
def firstPriceMatch : List Char → Option ℚ
  | [] => none
  | c :: rest =>
    if c = '$' then
      match spanDigits rest with
      | ([], _) => firstPriceMatch rest
      | (ds, rest1) =>
        match rest1 with
        | '.' :: rest2 => some (ratOfParts ds (rest2.takeWhile Char.isDigit))
        | _ => some (ratOfParts ds [])
    else firstPriceMatch rest

/-- A positioned text fragment, as both parser versions define it
    (`TextItem`).  Font metadata is optional in the source interface. -/
structure TextItem where
  text : List Char
  x : ℚ := 0
  y : ℚ := 0
  width : ℚ := 0
  height : ℚ := 0
  fontSize : ℚ := 0
  fontName : Option (List Char) := none
  fontWeight : Option (List Char) := none
  fontStyle : Option (List Char) := none
deriving DecidableEq, Repr

/-- Axis-aligned bounding box of a region. -/
structure BBox where
  x : ℚ := 0
  y : ℚ := 0
  width : ℚ := 0
  height : ℚ := 0
deriving DecidableEq, Repr

/-- A clustered candidate region (`MenuRegion`). -/
structure MenuRegion where
  items : List TextItem
  boundingBox : BBox := {}
  confidence : ℚ := 0
  pageNumber : ℕ := 1
  pageHeight : ℚ := 0
  regionImage : Option (List Char) := none
deriving DecidableEq, Repr

/-- A structured output record (`MenuItem`).  `confidence` is optional in
    the source type; every modelled constructor sets it, so it is kept
    total here. -/
structure MenuItem where
  id : List Char := []
  name : List Char
  price : ℚ
  description : Option (List Char) := none
  category : List Char := []
  servingSize : ℚ := 1
  regionImage : Option (List Char) := none
  confidence : ℚ := 0
deriving DecidableEq, Repr

/-! ### Phase 1 band formation (V6 `groupIntoHorizontalBands`) -/

/-- JavaScript `item.fontSize || 12`: substitutes 12 for a zero font size. -/
def fontSizeOr12 (it : TextItem) : ℚ :=
  if it.fontSize = 0 then 12 else it.fontSize

/-- The em distance the band loop computes between the incoming item and the
    last item of the current band:
    `Math.abs(item.y - lastItem.y) / (item.fontSize || 12)`. -/
def emDistance (item lastItem : TextItem) : ℚ :=
  |item.y - lastItem.y| / fontSizeOr12 item

/-- One iteration of the V6 band loop.  The current band is stored in
    reverse so that its head is the most recently pushed item, which is the
    `currentBand[currentBand.length - 1]` the source compares against. -/
def bandStep (yThreshold : ℚ) (st : List (List TextItem) × List TextItem)
    (item : TextItem) : List (List TextItem) × List TextItem :=
  match st with
  | (bands, []) => (bands, [item])
  | (bands, lastItem :: cur) =>
    if emDistance item lastItem ≤ yThreshold then
      (bands, item :: lastItem :: cur)
    else
      (bands ++ [(lastItem :: cur).reverse], [item])

/-- Flush the trailing band, as the source does after its loop. -/
def bandFinish (st : List (List TextItem) × List TextItem) :
    List (List TextItem) :=
  match st with
  | (bands, []) => bands
  | (bands, cur) => bands ++ [cur.reverse]

/-- V6 `groupIntoHorizontalBands(sortedItems, yThreshold)`. -/
def groupIntoHorizontalBands (sortedItems : List TextItem)
    (yThreshold : ℚ) : List (List TextItem) :=
  bandFinish (sortedItems.foldl (bandStep yThreshold) ([], []))

/-- Number of band breaks the loop takes while scanning `rest` with `prev`
    as the previously consumed item. -/
def breakCount (yThreshold : ℚ) : TextItem → List TextItem → ℕ
  | _, [] => 0
  | prev, x :: xs =>
    (if emDistance x prev ≤ yThreshold then 0 else 1) +
      breakCount yThreshold x xs

theorem bandFinish_foldl_flatten (yThreshold : ℚ) :
    ∀ (rest : List TextItem) (bands : List (List TextItem))
      (cur : List TextItem),
      (bandFinish (rest.foldl (bandStep yThreshold) (bands, cur))).flatten =
        bands.flatten ++ cur.reverse ++ rest := by
  intro rest
  induction rest with
  | nil =>
    intro bands cur
    cases cur with
    | nil => simp [bandFinish]
    | cons a as => simp [bandFinish]
  | cons x xs ih =>
    intro bands cur
    cases cur with
    | nil =>
      simp only [List.foldl_cons, bandStep]
      rw [ih]
      simp
    | cons lastItem c =>
      simp only [List.foldl_cons, bandStep]
      by_cases h : emDistance x lastItem ≤ yThreshold
      · rw [if_pos h, ih]
        simp
      · rw [if_neg h, ih]
        simp

theorem bandFinish_foldl_length (yThreshold : ℚ) :
    ∀ (rest : List TextItem) (bands : List (List TextItem))
      (prev : TextItem) (c : List TextItem),
      (bandFinish (rest.foldl (bandStep yThreshold) (bands, prev :: c))).length =
        bands.length + 1 + breakCount yThreshold prev rest := by
  intro rest
  induction rest with
  | nil =>
    intro bands prev c
    simp [bandFinish, breakCount]
  | cons x xs ih =>
    intro bands prev c
    simp only [List.foldl_cons, bandStep]
    by_cases h : emDistance x prev ≤ yThreshold
    · rw [if_pos h, ih]
      simp [breakCount, h]
    · rw [if_neg h, ih]
      simp only [breakCount, if_neg h, List.length_append, List.length_cons,
        List.length_nil]
      omega

theorem breakCount_antitone {th1 th2 : ℚ} (h : th1 ≤ th2) :
    ∀ (prev : TextItem) (l : List TextItem),
      breakCount th2 prev l ≤ breakCount th1 prev l := by
  intro prev l
  induction l generalizing prev with
  | nil => simp [breakCount]
  | cons x xs ih =>
    simp only [breakCount]
    refine Nat.add_le_add ?_ (ih x)
    by_cases h1 : emDistance x prev ≤ th1
    · rw [if_pos h1, if_pos (le_trans h1 h)]
    · rw [if_neg h1]
      split <;> omega

/-- C8: Band formation is antitone in the vertical proximity threshold: for
    every fixed list of tokens, increasing the `yProximityEm` threshold never
    increases the number of horizontal bands produced by
    `groupIntoHorizontalBands`. -/
theorem band_count_antitone_in_threshold
    (items : List TextItem) (th1 th2 : ℚ) (h : th1 ≤ th2) :
    (groupIntoHorizontalBands items th2).length ≤
      (groupIntoHorizontalBands items th1).length := by
  cases items with
  | nil => simp [groupIntoHorizontalBands, bandFinish]
  | cons x xs =>
    unfold groupIntoHorizontalBands
    simp only [List.foldl_cons, bandStep]
    rw [bandFinish_foldl_length, bandFinish_foldl_length]
    have := breakCount_antitone h x xs
    omega

/-- Witness for C8 at a concrete input: three tokens at y = 0, 10, 40 with
    font size 10; threshold 1 em gives three bands, threshold 4 em gives
    one, and indeed 1 ≤ 3. -/
theorem band_count_antitone_in_threshold_witness :
    (1 : ℚ) ≤ 4 ∧
    (groupIntoHorizontalBands
        [{ text := str "a", y := 0, fontSize := 10 },
         { text := str "b", y := 10, fontSize := 10 },
         { text := str "c", y := 40, fontSize := 10 }] 4).length ≤
      (groupIntoHorizontalBands
        [{ text := str "a", y := 0, fontSize := 10 },
         { text := str "b", y := 10, fontSize := 10 },
         { text := str "c", y := 40, fontSize := 10 }] 1).length :=
  ⟨by norm_num,
   band_count_antitone_in_threshold _ 1 4 (by norm_num)⟩

/-- C9: Band formation is a partition: concatenating the bands produced by
    `groupIntoHorizontalBands` in order yields exactly the input sequence
    (the Y-sorted token list it is invoked on), so every token lands in
    exactly one band, none dropped or duplicated; moreover no band is
    empty. -/
theorem bands_partition_input (items : List TextItem) (yThreshold : ℚ) :
    (groupIntoHorizontalBands items yThreshold).flatten = items ∧
      ∀ b ∈ groupIntoHorizontalBands items yThreshold, b ≠ [] := by
  constructor
  · have := bandFinish_foldl_flatten yThreshold items [] []
    simpa [groupIntoHorizontalBands] using this
  · intro b hb
    have hjoin := bandFinish_foldl_flatten yThreshold items [] []
    -- nonemptiness: by the invariant that all flushed bands are reverses of
    -- nonempty current bands
    revert hb
    have : ∀ (rest : List TextItem) (bands : List (List TextItem))
        (cur : List TextItem), (∀ b ∈ bands, b ≠ []) →
        ∀ b ∈ bandFinish (rest.foldl (bandStep yThreshold) (bands, cur)),
          b ≠ [] := by
      intro rest
      induction rest with
      | nil =>
        intro bands cur hbands b hb
        cases cur with
        | nil => exact hbands b hb
        | cons a as =>
          simp only [bandFinish] at hb
          rcases List.mem_append.mp hb with hb | hb
          · exact hbands b hb
          · have hb' : b = (a :: as).reverse := List.mem_singleton.mp hb
            subst hb'
            simp
      | cons x xs ih =>
        intro bands cur hbands b hb
        cases cur with
        | nil =>
          simp only [List.foldl_cons, bandStep] at hb
          exact ih bands [x] hbands b hb
        | cons lastItem c =>
          simp only [List.foldl_cons, bandStep] at hb
          by_cases h : emDistance x lastItem ≤ yThreshold
          · rw [if_pos h] at hb
            exact ih bands (x :: lastItem :: c) hbands b hb
          · rw [if_neg h] at hb
            refine ih _ [x] ?_ b hb
            intro b' hb'
            rcases List.mem_append.mp hb' with hb' | hb'
            · exact hbands b' hb'
            · have hb'' : b' = (lastItem :: c).reverse := List.mem_singleton.mp hb'
              subst hb''
              simp
    intro hb
    exact this items [] [] (by simp) b hb

/-! ### Phase 0 number classification -/

/-- The classification tags of `NumberClassification['type']`. -/
inductive NumType where
  | price | count | calorie | measurement | itemNumber | unknown
deriving DecidableEq, Repr

/-- A classified numeric substring (`NumberClassification`). -/
structure NumberClassification where
  value : ℚ
  type : NumType
  confidence : ℚ
  reasoning : List Char
deriving DecidableEq, Repr

/-- Body of the anchored regex `\d+\.?\d{0,2}$` after the optional dollar
    sign: at least one digit, then optionally a dot followed by at most two
    digits, then the end of the string. -/
def currencyCore (s1 : List Char) : Bool :=
  match spanDigits s1 with
  | ([], _) => false
  | (_ :: _, rest) =>
    match rest with
    | [] => true
    | c :: rest2 => c = '.' && rest2.length ≤ 2 && rest2.all Char.isDigit

/-- Test for the anchored regex `^\$?\d+\.?\d{0,2}$` used by the V5 price
    rule: an optional dollar sign, at least one digit, and optionally a dot
    followed by at most two digits. -/
def currencyFormatTest (s : List Char) : Bool :=
  match s with
  | [] => currencyCore []
  | c :: rest => if c = '$' then currencyCore rest else currencyCore (c :: rest)

/-- The unit alternatives of the V5 measurement regex
    `\d+\s*(oz|lb|"|'|inch|foot|liter|ml)`. -/
def measUnits : List (List Char) :=
  [str "oz", str "lb", [Char.ofNat 34], [apos], str "inch", str "foot",
   str "liter", str "ml"]

/-- After a digit run: skip the remaining digits and any whitespace, then
    require one of the unit alternatives. -/
def measAfterDigits (s : List Char) : Bool :=
  measUnits.any (fun u =>
    isPrefixB u ((s.dropWhile Char.isDigit).dropWhile Char.isWhitespace))

/-- Test for `\d+\s*(oz|lb|"|'|inch|foot|liter|ml)` (applied to the
    lowercased text for the `/i` flag): somewhere in the string a digit run
    is followed, after optional whitespace, by a unit. -/
def measurementScan : List Char → Bool
  | [] => false
  | c :: rest =>
    (c.isDigit && measAfterDigits (c :: rest)) || measurementScan rest

/-- Test for the anchored regex `^#?\d+$`. -/
def hashNumberTest (s : List Char) : Bool :=
  let s1 := match s with
            | c :: rest => if c = '#' then rest else s
            | [] => s
  !s1.isEmpty && s1.all Char.isDigit

/-- Test for the unanchored regex `No\.\s*\d+` (applied to lowercased text
    for the `/i` flag): `no.` followed by optional whitespace and a digit. -/
def noNumberScan : List Char → Bool
  | [] => false
  | c :: rest =>
    (isPrefixB (str "no.") (c :: rest) &&
      (match ((c :: rest).drop 3).dropWhile Char.isWhitespace with
       | [] => false
       | d :: _ => d.isDigit)) || noNumberScan rest

/-- V5 `classifyNumber(value, text, item)`: the ordered first-match-wins
    rule cascade of the heuristic parser.  The `item` argument is unused by
    the source body and kept for signature fidelity. -/
def classifyNumberV5 (value : ℚ) (text : List Char) (_item : TextItem) :
    NumberClassification :=
  if currencyFormatTest text = true ∧ 1/2 < value ∧ value < 200 then
    { value, type := .price, confidence := 0.9,
      reasoning := str "Currency format with reasonable restaurant pricing range" }
  else if 100 ≤ value ∧ value ≤ 2000 ∧
      (containsSub (str "cal") text = true ∨ containsSub (str "kcal") text = true) then
    { value, type := .calorie, confidence := 0.85,
      reasoning := str "Large number with calorie suffix in typical range" }
  else if measurementScan (toLowerList text) = true then
    { value, type := .measurement, confidence := 0.8,
      reasoning := str "Number followed by measurement unit" }
  else if value ≤ 20 ∧ value.den = 1 ∧ containsSub (str "$") text = false then
    { value, type := .count, confidence := 0.6,
      reasoning := str "Small integer without currency symbols" }
  else if hashNumberTest text = true ∨ noNumberScan (toLowerList text) = true then
    { value, type := .itemNumber, confidence := 0.7,
      reasoning := str "Sequential number with prefix patterns" }
  else
    { value, type := .unknown, confidence := 0.3,
      reasoning := str "Does not match known heuristic patterns" }

/-- The unit alternatives of the V6 measurement regex `(oz|lb|kg|g|ml|l)`. -/
def measUnitsV6 : List (List Char) :=
  [str "oz", str "lb", str "kg", str "g", str "ml", str "l"]

/-- V6 `classifyNumber(value, text, item)`: same cascade shape, different
    thresholds; the fall-through result keeps the initial values
    (`unknown`, confidence 0, empty reasoning). -/
def classifyNumberV6 (value : ℚ) (text : List Char) (item : TextItem) :
    NumberClassification :=
  if containsSub (str "$") text = true ∧ 1 ≤ value ∧ value ≤ 100 then
    { value, type := .price, confidence := 0.9,
      reasoning := str "Contains dollar sign and reasonable price range" }
  else if containsSub (str "calorie") (toLowerList text) = true ∧
      50 ≤ value ∧ value ≤ 2000 then
    { value, type := .calorie, confidence := 0.85,
      reasoning := str "Contains calorie keyword with reasonable range" }
  else if measUnitsV6.any (fun u => containsSub u (toLowerList text)) = true then
    { value, type := .measurement, confidence := 0.8,
      reasoning := str "Contains measurement unit" }
  else if value ≤ 20 ∧ value.den = 1 then
    { value, type := .count, confidence := 0.6,
      reasoning := str "Small integer, likely a count" }
  else if item.x < 50 ∧ value.den = 1 then
    { value, type := .itemNumber, confidence := 0.7,
      reasoning := str "Integer at left margin, likely item number" }
  else
    { value, type := .unknown, confidence := 0, reasoning := [] }

/-- A throwaway `TextItem` used where the classifier ignores its item
    argument. -/
def dummyItem : TextItem := { text := [] }

theorem containsSub_head_mem {p : Char} {ps s : List Char}
    (h : containsSub (p :: ps) s = true) : p ∈ s := by
  induction s with
  | nil => simp [containsSub, isPrefixB] at h
  | cons c rest ih =>
    simp only [containsSub, Bool.or_eq_true] at h
    rcases h with h | h
    · simp only [isPrefixB, Bool.and_eq_true, decide_eq_true_eq] at h
      rw [h.1]
      exact List.mem_cons_self c rest
    · exact List.mem_cons_of_mem c (ih h)

theorem currencyCore_chars {s1 : List Char} (h : currencyCore s1 = true) :
    ∀ c ∈ s1, c.isDigit = true ∨ c = '.' := by
  intro c hc
  have hsplit : s1.takeWhile Char.isDigit ++ s1.dropWhile Char.isDigit = s1 :=
    List.takeWhile_append_dropWhile Char.isDigit s1
  unfold currencyCore at h
  revert h
  cases htw : s1.takeWhile Char.isDigit with
  | nil => intro h; simp [spanDigits, htw] at h
  | cons d ds =>
    intro h
    simp only [spanDigits, htw] at h
    rw [← hsplit] at hc
    rcases List.mem_append.mp hc with hc1 | hc2
    · exact Or.inl (List.mem_takeWhile_imp hc1)
    · revert h
      cases hdw : s1.dropWhile Char.isDigit with
      | nil => intro h; rw [hdw] at hc2; simp at hc2
      | cons e es =>
        intro h
        rw [hdw] at hc2
        simp only [Bool.and_eq_true, decide_eq_true_eq] at h
        rcases List.mem_cons.mp hc2 with rfl | hc3
        · exact Or.inr h.1.1
        · exact Or.inl (List.all_eq_true.mp h.2 c hc3)

theorem currencyFormatTest_chars {s : List Char}
    (h : currencyFormatTest s = true) :
    ∀ c ∈ s, c = '$' ∨ c.isDigit = true ∨ c = '.' := by
  intro c hc
  cases s with
  | nil => simp at hc
  | cons c0 rest =>
    have h1 : (if c0 = '$' then currencyCore rest
               else currencyCore (c0 :: rest)) = true := h
    by_cases hc0 : c0 = '$'
    · rw [if_pos hc0] at h1
      rcases List.mem_cons.mp hc with rfl | hc1
      · exact Or.inl hc0
      · exact Or.inr (currencyCore_chars h1 c hc1)
    · rw [if_neg hc0] at h1
      exact Or.inr (currencyCore_chars h1 c hc)

theorem cal_not_currencyFormat {s : List Char}
    (h : containsSub (str "cal") s = true) : currencyFormatTest s = false := by
  have hmem : 'c' ∈ s := containsSub_head_mem (by simpa [str] using h)
  by_contra hcf
  have hcf' : currencyFormatTest s = true := by
    cases hcur : currencyFormatTest s with
    | false => exact absurd hcur hcf
    | true => rfl
  rcases currencyFormatTest_chars hcf' 'c' hmem with h1 | h1 | h1 <;> simp_all

/-- C4 counterexample: the claim asserts that a currency-format number in
    the closed range [0.5, 200] is classified as Price with confidence 0.9,
    but the V5 cascade uses the strict bounds `value > 0.5 && value < 200`:
    at the concrete input text `$200` with value 200 — currency format, and
    inside the claimed closed range — the cascade falls through every rule
    and returns `unknown` with confidence 0.3, not Price with 0.9. -/
theorem classifyNumber_closed_interval_counterexample :
    currencyFormatTest (str "$200") = true ∧
    (1/2 : ℚ) ≤ 200 ∧ (200 : ℚ) ≤ 200 ∧
    (classifyNumberV5 200 (str "$200") dummyItem).type = NumType.unknown ∧
    (classifyNumberV5 200 (str "$200") dummyItem).confidence = 0.3 ∧
    (classifyNumberV5 200 (str "$200") dummyItem).type ≠ NumType.price := by
  have hb2 : containsSub (str "cal") (str "$200") = false := by decide
  have hb3 : containsSub (str "kcal") (str "$200") = false := by decide
  have hb4 : measurementScan (toLowerList (str "$200")) = false := by decide
  have hb6 : hashNumberTest (str "$200") = false := by decide
  have hb7 : noNumberScan (toLowerList (str "$200")) = false := by decide
  have e : classifyNumberV5 200 (str "$200") dummyItem =
      { value := 200, type := .unknown, confidence := 0.3,
        reasoning := str "Does not match known heuristic patterns" } := by
    unfold classifyNumberV5
    rw [if_neg (fun h => absurd h.2.2 (by norm_num)),
      if_neg (fun h => by rcases h.2.2 with h' | h' <;> simp_all),
      if_neg (by simp [hb4]),
      if_neg (fun h => absurd h.1 (by norm_num)),
      if_neg (by simp [hb6, hb7])]
  refine ⟨by decide, by norm_num, by norm_num, by rw [e], by rw [e], ?_⟩
  rw [e]
  intro hp
  exact NumType.noConfusion hp

/-! ### Phase 1 region confidence scoring -/

/-- JavaScript `Math.max(...l)` for the nonempty lists the source applies it to
    (folded with the head as base so the empty list degrades to 0 instead
    of JavaScript's -Infinity, which no modelled call site can produce). -/
def maxListQ (l : List ℚ) : ℚ := l.foldr max (l.headD 0)

/-- JavaScript `Math.min(...l)`, same convention as `maxListQ`. -/
def minListQ (l : List ℚ) : ℚ := l.foldr min (l.headD 0)

/-- The member text lengths `items.map(item => item.text.length)`. -/
def regionLengths (items : List TextItem) : List ℚ :=
  items.map (fun it => (it.text.length : ℚ))

/-- V5 `calculateRegionConfidence(items, boundingBox)`: base 0.5, +0.2 for
    text-length variety (`max > min * 1.5`), +0.3 for a currency pattern,
    +0.2 for member count in [2,5], +0.1 for at most 3 distinct non-empty
    font names (`filter(Boolean)` drops absent and empty names), capped by
    `Math.min(score, 1.0)`. -/
def calculateRegionConfidenceV5 (items : List TextItem) (_bb : BBox) : ℚ :=
  min
    (0.5 +
      (if maxListQ (regionLengths items) >
          minListQ (regionLengths items) * 1.5 then 0.2 else 0) +
      (if items.any (fun it => hasDollarPrice it.text) then 0.3 else 0) +
      (if 2 ≤ items.length ∧ items.length ≤ 5 then 0.2 else 0) +
      (if (((items.filterMap TextItem.fontName).filter
              (fun n => !n.isEmpty)).dedup).length ≤ 3 then 0.1 else 0))
    1.0

/-- V6 `calculateRegionConfidence(items, boundingBox)`: a continuous
    length-variety term `min(0.3, (max - min) / 50)`, +0.4 for a currency
    pattern, +0.2 for member count in [3,6], +0.1 for at most 2 distinct
    font-name values (no filtering), capped by `Math.min(1.0, score)`. -/
def calculateRegionConfidenceV6 (items : List TextItem) (_bb : BBox) : ℚ :=
  min 1.0
    (min 0.3 ((maxListQ (regionLengths items) -
        minListQ (regionLengths items)) / 50) +
      (if items.any (fun it => hasDollarPrice it.text) then 0.4 else 0) +
      (if 3 ≤ items.length ∧ items.length ≤ 6 then 0.2 else 0) +
      (if ((items.map TextItem.fontName).dedup).length ≤ 2 then 0.1 else 0))

/-- Region bounding box: min/max over member token edges (both versions
    compute it identically). -/
def regionBoundingBox (items : List TextItem) : BBox :=
  { x := minListQ (items.map TextItem.x),
    y := minListQ (items.map TextItem.y),
    width := maxListQ (items.map (fun it => it.x + it.width)) -
      minListQ (items.map TextItem.x),
    height := maxListQ (items.map (fun it => it.y + it.height)) -
      minListQ (items.map TextItem.y) }

/-- V5 `createRegionFromItems(items, pageNum, pageHeight)`. -/
def createRegionFromItemsV5 (items : List TextItem) (pageNum : ℕ)
    (pageHeight : ℚ) : MenuRegion :=
  { items, boundingBox := regionBoundingBox items,
    confidence := calculateRegionConfidenceV5 items (regionBoundingBox items),
    pageNumber := pageNum, pageHeight }

/-- V6 `createRegionFromItems(items, pageNum, pageHeight)`. -/
def createRegionFromItemsV6 (items : List TextItem) (pageNum : ℕ)
    (pageHeight : ℚ) : MenuRegion :=
  { items, boundingBox := regionBoundingBox items,
    confidence := calculateRegionConfidenceV6 items (regionBoundingBox items),
    pageNumber := pageNum, pageHeight }

/-- The region confidence formula exactly as claim C7 words it: base 0.5,
    +0.2 if the maximum member text length exceeds 1.5 times the minimum,
    +0.3 if any member matches a currency pattern, +0.2 if the member count
    is between 2 and 5, +0.1 if the members use at most 3 distinct font
    names, with the final value clamped to [0,1]. -/
def specRegionConfidence (items : List TextItem) : ℚ :=
  max 0 (min 1
    (0.5 +
      (if maxListQ (regionLengths items) >
          1.5 * minListQ (regionLengths items) then 0.2 else 0) +
      (if items.any (fun it => hasDollarPrice it.text) then 0.3 else 0) +
      (if 2 ≤ items.length ∧ items.length ≤ 5 then 0.2 else 0) +
      (if ((items.filterMap TextItem.fontName).dedup).length ≤ 3
        then 0.1 else 0)))

theorem le_foldr_max (l : List ℚ) (a : ℚ) : a ≤ l.foldr max a := by
  induction l with
  | nil => exact le_refl a
  | cons x xs ih => exact le_max_of_le_right ih

theorem foldr_min_le (l : List ℚ) (a : ℚ) : l.foldr min a ≤ a := by
  induction l with
  | nil => exact le_refl a
  | cons x xs ih => exact min_le_of_right_le ih

theorem minListQ_le_maxListQ (l : List ℚ) : minListQ l ≤ maxListQ l :=
  le_trans (foldr_min_le l (l.headD 0)) (le_foldr_max l (l.headD 0))

/-- The two tokens of the C7 counterexample region: a short name and a
    currency-bearing price token sharing one font. -/
def c7Items : List TextItem :=
  [{ text := str "Tea", fontName := some (str "f") },
   { text := str "$4.50", fontName := some (str "f") }]

/-- Clamping from above by `Math.min(score, 1.0)` agrees with the claimed
    two-sided clamp to [0,1] whenever the raw score is nonnegative. -/
theorem min_one_clamp_eq (s : ℚ) (hs : 0 ≤ s) :
    min s 1.0 = max 0 (min 1 s) := by
  have h10 : (1.0 : ℚ) = 1 := by norm_num
  rw [h10, min_comm s 1, max_eq_right (le_min (by norm_num) hs)]

/-- C7 counterexample: the claim asserts that every Region's confidence is
    the clamped weighted sum base 0.5 / +0.2 variety / +0.3 currency /
    +0.2 count∈[2,5] / +0.1 fonts≤3, but a Region built by the V6 detector
    from the two tokens `Tea` and `$4.50` (one shared font) has confidence
    27/50 = 0.54 (from V6's different formula), while the claimed formula
    gives 1. -/
theorem regionConfidence_formula_counterexample :
    (createRegionFromItemsV6 c7Items 1 100).confidence = 27/50 ∧
    specRegionConfidence c7Items = 1 ∧ (27/50 : ℚ) ≠ 1 := by
  have htea : ((str "Tea").length : ℚ) = 3 := by
    norm_num [show (str "Tea").length = 3 from by decide]
  have hdol : ((str "$4.50").length : ℚ) = 5 := by
    norm_num [show (str "$4.50").length = 5 from by decide]
  have hlens : regionLengths c7Items = [(3 : ℚ), 5] := by
    simp [regionLengths, c7Items, htea, hdol]
  have hmax : maxListQ [(3 : ℚ), 5] = 5 := by
    norm_num [maxListQ, List.headD, max_def]
  have hmin : minListQ [(3 : ℚ), 5] = 3 := by
    norm_num [minListQ, List.headD, min_def]
  have hany : c7Items.any (fun it => hasDollarPrice it.text) = true := by decide
  have hlen2 : c7Items.length = 2 := by decide
  have hd6 : ((c7Items.map TextItem.fontName).dedup).length = 1 := by decide
  have hd5 : ((c7Items.filterMap TextItem.fontName).dedup).length = 1 := by
    decide
  refine ⟨?_, ?_, by norm_num⟩
  · show calculateRegionConfidenceV6 c7Items (regionBoundingBox c7Items) = 27/50
    unfold calculateRegionConfidenceV6
    rw [hlens, hmax, hmin, hany, hlen2, hd6]
    norm_num [min_def]
  · unfold specRegionConfidence
    rw [hlens, hmax, hmin, hany, hlen2, hd5]
    norm_num [min_def, max_def]

/-- C7 (amended): the claimed formula is exactly the V5 detector's region
    confidence — for every member list whose font names, where present, are
    non-empty (so that the source's `filter(Boolean)` is the identity),
    `calculateRegionConfidence` of the V5 parser equals the claimed clamped
    weighted sum.  The V6 detector uses a different formula (see the
    counterexample). -/
theorem regionConfidence_formula_amended (items : List TextItem) (bb : BBox)
    (hfont : ∀ it ∈ items, it.fontName ≠ some []) :
    calculateRegionConfidenceV5 items bb = specRegionConfidence items := by
  have hfilter : ((items.filterMap TextItem.fontName).filter
      (fun n => !n.isEmpty)) = items.filterMap TextItem.fontName := by
    apply List.filter_eq_self.mpr
    intro n hn
    obtain ⟨it, hit, hsome⟩ := List.mem_filterMap.mp hn
    have hne : n ≠ [] := fun h0 => hfont it hit (h0 ▸ hsome)
    cases n with
    | nil => exact absurd rfl hne
    | cons c cs => rfl
  unfold calculateRegionConfidenceV5 specRegionConfidence
  rw [hfilter, mul_comm (minListQ (regionLengths items)) (1.5 : ℚ)]
  apply min_one_clamp_eq
  split_ifs <;> norm_num

/-- Witness for C7 (amended) at the concrete two-token region `c7Items`
    (all font names present and non-empty). -/
theorem regionConfidence_formula_amended_witness :
    calculateRegionConfidenceV5 c7Items { } = specRegionConfidence c7Items :=
  regionConfidence_formula_amended c7Items { } (by decide)

/-! ### Confidence producers of the remaining phases -/

/-- V5 typography fingerprint confidence:
    `Math.min(items.length / 10, 1.0)`. -/
def typographyConfidenceV5 (groupSize : ℕ) : ℚ :=
  min ((groupSize : ℚ) / 10) 1.0

/-- V6 typography fingerprint confidence:
    `Math.min(0.95, items.length / 10)`. -/
def typographyConfidenceV6 (groupSize : ℕ) : ℚ :=
  min 0.95 ((groupSize : ℚ) / 10)

/-- V6 box-detection rectangle confidence: the mean of the four
    contributing line strengths normalized by 100, clamped by
    `Math.min(1.0, confidence)`. -/
def formRectConfidence (top bottom left right : ℚ) : ℚ :=
  min 1.0 ((top + bottom + left + right) / 4 / 100)

/-- V6 confidence of a region created from a line-detected box:
    `0.85 + box.confidence * 0.15`. -/
def lineBoxRegionConfidence (boxConfidence : ℚ) : ℚ :=
  0.85 + boxConfidence * 0.15

/-- V5 `checkTypographyConsistency(texts)`: between 2 and 6 member
    texts. -/
def checkTypographyConsistencyV5 (texts : List (List Char)) : Bool :=
  2 ≤ texts.length && texts.length ≤ 6

/-- The +0.3 price-classification bonus of V5
    `validateMenuItemWithHeuristics`: look up the first classification
    matching the item's price with type Price and require its confidence
    above 0.7. -/
def priceClassBonus (item : MenuItem)
    (ncs : List NumberClassification) : ℚ :=
  match ncs.find? (fun nc =>
      decide (nc.value = item.price ∧ nc.type = NumType.price)) with
  | some nc => if nc.confidence > 0.7 then 0.3 else 0
  | none => 0

/-- V5 `validateMenuItemWithHeuristics(item, region)` (the classification
    list is the parser-state field `this.numberClassifications`, passed
    explicitly here): weighted checks summed, confidence clamped by
    `Math.min(score, 1.0)`, valid when above 0.6. -/
def validateMenuItemWithHeuristicsV5 (item : MenuItem) (region : MenuRegion)
    (ncs : List NumberClassification) : Bool × ℚ :=
  let score : ℚ :=
    (if item.name.length ≤ 50 ∧ 2 ≤ item.name.length then 0.2 else 0) +
    (if (match item.description with
         | none => true
         | some d => decide (item.name.length ≤ d.length)) = true
      then 0.2 else 0) +
    priceClassBonus item ncs +
    (if checkTypographyConsistencyV5 (region.items.map TextItem.text)
      then 0.2 else 0) +
    (if 0.5 < item.price ∧ item.price < 200 then 0.1 else 0)
  let conf := min score 1.0
  (decide (conf > 0.6), conf)

theorem priceClassBonus_nonneg (item : MenuItem)
    (ncs : List NumberClassification) : 0 ≤ priceClassBonus item ncs := by
  unfold priceClassBonus
  cases hfind : ncs.find? (fun nc =>
      decide (nc.value = item.price ∧ nc.type = NumType.price)) with
  | none => simp [hfind]
  | some nc =>
    show (0 : ℚ) ≤ if nc.confidence > 0.7 then 0.3 else 0
    split_ifs <;> norm_num

/-- C3: every confidence value the pipeline produces lies in [0,1], even
    when the raw weighted sum of contributing factors exceeds 1 before
    clamping: the V5 and V6 region-confidence scores, the V5 and V6 number
    classifications, the typography-fingerprint confidences, the
    box-detection rectangle confidence (for nonnegative edge strengths),
    the line-detected-box region confidence (for a box confidence already
    in [0,1], as `formRectConfidence` guarantees), and the V5 item
    validation confidence. -/
theorem confidence_unit_interval :
    (∀ (items : List TextItem) (bb : BBox),
      0 ≤ calculateRegionConfidenceV5 items bb ∧
        calculateRegionConfidenceV5 items bb ≤ 1) ∧
    (∀ (items : List TextItem) (bb : BBox),
      0 ≤ calculateRegionConfidenceV6 items bb ∧
        calculateRegionConfidenceV6 items bb ≤ 1) ∧
    (∀ (v : ℚ) (t : List Char) (it : TextItem),
      0 ≤ (classifyNumberV5 v t it).confidence ∧
        (classifyNumberV5 v t it).confidence ≤ 1) ∧
    (∀ (v : ℚ) (t : List Char) (it : TextItem),
      0 ≤ (classifyNumberV6 v t it).confidence ∧
        (classifyNumberV6 v t it).confidence ≤ 1) ∧
    (∀ n : ℕ, 0 ≤ typographyConfidenceV5 n ∧ typographyConfidenceV5 n ≤ 1) ∧
    (∀ n : ℕ, 0 ≤ typographyConfidenceV6 n ∧ typographyConfidenceV6 n ≤ 1) ∧
    (∀ t b l r : ℚ, 0 ≤ t → 0 ≤ b → 0 ≤ l → 0 ≤ r →
      0 ≤ formRectConfidence t b l r ∧ formRectConfidence t b l r ≤ 1) ∧
    (∀ c : ℚ, 0 ≤ c → c ≤ 1 →
      0 ≤ lineBoxRegionConfidence c ∧ lineBoxRegionConfidence c ≤ 1) ∧
    (∀ (item : MenuItem) (region : MenuRegion)
        (ncs : List NumberClassification),
      0 ≤ (validateMenuItemWithHeuristicsV5 item region ncs).2 ∧
        (validateMenuItemWithHeuristicsV5 item region ncs).2 ≤ 1) := by
  refine ⟨?_, ?_, ?_, ?_, ?_, ?_, ?_, ?_, ?_⟩
  · intro items bb
    unfold calculateRegionConfidenceV5
    constructor
    · refine le_min ?_ (by norm_num)
      split_ifs <;> norm_num
    · exact (min_le_right _ _).trans (by norm_num)
  · intro items bb
    unfold calculateRegionConfidenceV6
    constructor
    · have hD : (0 : ℚ) ≤ min 0.3 ((maxListQ (regionLengths items) -
          minListQ (regionLengths items)) / 50) :=
        le_min (by norm_num)
          (div_nonneg (sub_nonneg.mpr (minListQ_le_maxListQ _)) (by norm_num))
      refine le_min (by norm_num) ?_
      split_ifs <;> linarith
    · exact (min_le_left _ _).trans (by norm_num)
  · intro v t it
    unfold classifyNumberV5
    split_ifs <;> norm_num
  · intro v t it
    unfold classifyNumberV6
    split_ifs <;> norm_num
  · intro n
    unfold typographyConfidenceV5
    constructor
    · exact le_min (by positivity) (by norm_num)
    · exact (min_le_right _ _).trans (by norm_num)
  · intro n
    unfold typographyConfidenceV6
    constructor
    · exact le_min (by norm_num) (by positivity)
    · exact (min_le_left _ _).trans (by norm_num)
  · intro t b l r ht hb hl hr
    unfold formRectConfidence
    constructor
    · exact le_min (by norm_num) (by positivity)
    · exact (min_le_left _ _).trans (by norm_num)
  · intro c hc0 hc1
    unfold lineBoxRegionConfidence
    constructor <;> nlinarith
  · intro item region ncs
    unfold validateMenuItemWithHeuristicsV5
    have hp := priceClassBonus_nonneg item ncs
    constructor
    · refine le_min ?_ (by norm_num)
      split_ifs <;> linarith
    · exact (min_le_right _ _).trans (by norm_num)

/-- Witness for C3 at concrete inputs: the hypothesised conjuncts applied
    at edge strengths 50/50/50/50 (giving rectangle confidence 1/2) and at
    box confidence 1/2 (giving 0.925). -/
theorem confidence_unit_interval_witness :
    (0 ≤ formRectConfidence 50 50 50 50 ∧ formRectConfidence 50 50 50 50 ≤ 1) ∧
    (0 ≤ lineBoxRegionConfidence (1/2) ∧ lineBoxRegionConfidence (1/2) ≤ 1) ∧
    (0 ≤ calculateRegionConfidenceV5 c7Items { } ∧
      calculateRegionConfidenceV5 c7Items { } ≤ 1) :=
  ⟨confidence_unit_interval.2.2.2.2.2.2.1 50 50 50 50
      (by norm_num) (by norm_num) (by norm_num) (by norm_num),
   confidence_unit_interval.2.2.2.2.2.2.2.1 (1/2) (by norm_num) (by norm_num),
   confidence_unit_interval.1 c7Items { }⟩

/-! ### Phase 3 deduplication and document-wide validation (V5) -/

/-- The key V5 deduplication normalizes names to:
    `item.name.toLowerCase().trim()`. -/
def nameKeyV5 (name : List Char) : List Char := trimStr (toLowerList name)

/-- The seen-set loop shared by V5 `deduplicateItems` and the inline
    name-uniqueness pass of V5 `validateMenuItemsWithHeuristics`: walk the
    list, keep an item only if its normalized name has not been seen. -/
def dedupByNameKey (seen : List (List Char)) : List MenuItem → List MenuItem
  | [] => []
  | it :: rest =>
    if nameKeyV5 it.name ∈ seen then dedupByNameKey seen rest
    else it :: dedupByNameKey (nameKeyV5 it.name :: seen) rest

/-- V5 `deduplicateItems(items)`. -/
def deduplicateItemsV5 (items : List MenuItem) : List MenuItem :=
  dedupByNameKey [] items

/-- V5 `validateMenuItemsWithHeuristics(items)`: the name-uniqueness pass
    (first occurrence wins), then the price-distribution pass — when any
    positive price exists, keep exactly the items whose price is 0 or below
    three times the mean positive price. -/
def validateMenuItemsWithHeuristicsV5 (items : List MenuItem) :
    List MenuItem :=
  let validatedItems := dedupByNameKey [] items
  let prices := (validatedItems.map MenuItem.price).filter
    (fun p => decide (0 < p))
  if 0 < prices.length then
    let avgPrice := prices.sum / prices.length
    validatedItems.filter (fun it =>
      if it.price = 0 then true else decide (it.price < avgPrice * 3))
  else validatedItems

/-- First-occurrence-wins deduplication as an independent specification:
    keep the head, delete every later item sharing its normalized name,
    recurse. -/
def specDedupFirstWins : List MenuItem → List MenuItem
  | [] => []
  | it :: rest =>
    it :: specDedupFirstWins (rest.filter
      (fun it2 => decide (nameKeyV5 it2.name ≠ nameKeyV5 it.name)))
termination_by l => l.length
decreasing_by
  simp only [List.length_cons]
  exact Nat.lt_succ_of_le (List.length_filter_le _ _)

theorem dedupByNameKey_nil (seen : List (List Char)) :
    dedupByNameKey seen [] = [] := rfl

theorem dedupByNameKey_cons (seen : List (List Char)) (it : MenuItem)
    (rest : List MenuItem) :
    dedupByNameKey seen (it :: rest) =
      if nameKeyV5 it.name ∈ seen then dedupByNameKey seen rest
      else it :: dedupByNameKey (nameKeyV5 it.name :: seen) rest := rfl

theorem dedupByNameKey_cons_seen :
    ∀ (n : ℕ) (items : List MenuItem), items.length ≤ n →
    ∀ (k : List Char) (seen : List (List Char)),
      dedupByNameKey (k :: seen) items =
        dedupByNameKey seen (items.filter
          (fun it2 => decide (nameKeyV5 it2.name ≠ k))) := by
  intro n
  induction n with
  | zero =>
    intro items hlen k seen
    have hnil : items = [] := List.eq_nil_of_length_eq_zero (Nat.le_zero.mp hlen)
    subst hnil
    rfl
  | succ n ih =>
    intro items hlen k seen
    cases items with
    | nil => rfl
    | cons it rest =>
      have hrest : rest.length ≤ n := by simpa using Nat.le_of_succ_le_succ hlen
      by_cases hk : nameKeyV5 it.name = k
      · rw [dedupByNameKey_cons,
          if_pos (by rw [hk]; exact List.mem_cons_self k seen),
          List.filter_cons_of_neg (by simp [hk]),
          ih rest hrest k seen]
      · rw [List.filter_cons_of_pos (by simp [hk])]
        by_cases hmem : nameKeyV5 it.name ∈ seen
        · rw [dedupByNameKey_cons, if_pos (List.mem_cons_of_mem k hmem),
            dedupByNameKey_cons, if_pos hmem, ih rest hrest k seen]
        · have hnotin : nameKeyV5 it.name ∉ k :: seen := by
            intro hin
            rcases List.mem_cons.mp hin with h | h
            · exact hk h
            · exact hmem h
          rw [dedupByNameKey_cons, if_neg hnotin,
            dedupByNameKey_cons, if_neg hmem]
          rw [ih rest hrest (nameKeyV5 it.name) (k :: seen)]
          rw [ih (rest.filter
              (fun it2 => decide (nameKeyV5 it2.name ≠ nameKeyV5 it.name)))
            (le_trans (List.length_filter_le _ _) hrest) k seen]
          rw [ih (rest.filter (fun it2 => decide (nameKeyV5 it2.name ≠ k)))
            (le_trans (List.length_filter_le _ _) hrest) (nameKeyV5 it.name) seen]
          rw [List.filter_comm]

theorem dedupByNameKey_eq_spec :
    ∀ (n : ℕ) (items : List MenuItem), items.length ≤ n →
      dedupByNameKey [] items = specDedupFirstWins items := by
  intro n
  induction n with
  | zero =>
    intro items hlen
    have hnil : items = [] := List.eq_nil_of_length_eq_zero (Nat.le_zero.mp hlen)
    subst hnil
    simp [specDedupFirstWins, dedupByNameKey_nil]
  | succ n ih =>
    intro items hlen
    cases items with
    | nil => simp [specDedupFirstWins, dedupByNameKey_nil]
    | cons it rest =>
      have hrest : rest.length ≤ n := by simpa using Nat.le_of_succ_le_succ hlen
      rw [dedupByNameKey_cons, if_neg (List.not_mem_nil _),
        dedupByNameKey_cons_seen rest.length rest (le_refl _)
          (nameKeyV5 it.name) [],
        ih (rest.filter
            (fun it2 => decide (nameKeyV5 it2.name ≠ nameKeyV5 it.name)))
          (le_trans (List.length_filter_le _ _) hrest)]
      rw [specDedupFirstWins]

theorem dedupByNameKey_fresh_pairwise :
    ∀ (items : List MenuItem) (seen : List (List Char)),
      (dedupByNameKey seen items).Pairwise
        (fun a b => nameKeyV5 a.name ≠ nameKeyV5 b.name) ∧
      ∀ b ∈ dedupByNameKey seen items, nameKeyV5 b.name ∉ seen := by
  intro items
  induction items with
  | nil => intro seen; exact ⟨List.Pairwise.nil, by simp [dedupByNameKey_nil]⟩
  | cons it rest ih =>
    intro seen
    rw [dedupByNameKey_cons]
    by_cases hmem : nameKeyV5 it.name ∈ seen
    · rw [if_pos hmem]
      exact ih seen
    · rw [if_neg hmem]
      obtain ⟨hpw, hfresh⟩ := ih (nameKeyV5 it.name :: seen)
      refine ⟨List.Pairwise.cons ?_ hpw, ?_⟩
      · intro b hb
        have := hfresh b hb
        intro heq
        exact this (heq ▸ List.mem_cons_self _ _)
      · intro b hb
        rcases List.mem_cons.mp hb with rfl | hb2
        · exact hmem
        · intro hin
          exact hfresh b hb2 (List.mem_cons_of_mem _ hin)

/-- The normalization claim C2 describes: lowercase, then collapse every
    whitespace run to a single space. -/
def collapseWsAux : Bool → List Char → List Char
  | _, [] => []
  | prevWs, c :: rest =>
    if c.isWhitespace then
      (if prevWs then [] else [' ']) ++ collapseWsAux true rest
    else c :: collapseWsAux false rest

/-- Lowercased, whitespace-collapsed name, as claim C2 words it. -/
def specNormalizeName (name : List Char) : List Char :=
  collapseWsAux false (toLowerList name)

/-- The three colliding items of the C2 counterexample. -/
def c2ItemY : MenuItem := { name := str "a b", price := 0, confidence := 0.5 }

/-- Same collapsed name as `c2ItemY` but a different raw key (double
    space), higher confidence. -/
def c2ItemX : MenuItem := { name := str "a  b", price := 0, confidence := 0.9 }

/-- Same raw key as `c2ItemY` (lowercasing), higher confidence. -/
def c2ItemZ : MenuItem := { name := str "A B", price := 0, confidence := 0.7 }

/-- The C2 counterexample input list. -/
def c2Input : List MenuItem := [c2ItemY, c2ItemX, c2ItemZ]

/-- C2 counterexample: the claim asserts (i) that no two final items share
    a lowercased, whitespace-COLLAPSED name and (ii) that on a collision
    the HIGHER-CONFIDENCE item is kept.  Both fail on V5
    `validateMenuItemsWithHeuristics` at the concrete input
    `[Y = "a b" (conf 0.5), X = "a  b" (conf 0.9), Z = "A B" (conf 0.7)]`:
    the output is `[Y, X]` — X and Y are two distinct final items with the
    same collapsed name (the code only trims, it does not collapse), and Z,
    which collides with Y under both normalizations and has the higher
    confidence 0.7 > 0.5, is discarded in favour of the earlier Y. -/
theorem dedup_counterexample :
    validateMenuItemsWithHeuristicsV5 c2Input = [c2ItemY, c2ItemX] ∧
    c2ItemY ≠ c2ItemX ∧
    specNormalizeName c2ItemX.name = specNormalizeName c2ItemY.name ∧
    specNormalizeName c2ItemZ.name = specNormalizeName c2ItemY.name ∧
    c2ItemZ ∉ validateMenuItemsWithHeuristicsV5 c2Input ∧
    c2ItemY.confidence < c2ItemZ.confidence := by
  have h1 : nameKeyV5 c2ItemY.name ∉ ([] : List (List Char)) :=
    List.not_mem_nil _
  have h2 : nameKeyV5 c2ItemX.name ∉ [nameKeyV5 c2ItemY.name] := by decide
  have h3 : nameKeyV5 c2ItemZ.name ∈
      [nameKeyV5 c2ItemX.name, nameKeyV5 c2ItemY.name] := by decide
  have hd : dedupByNameKey [] c2Input = [c2ItemY, c2ItemX] := by
    show dedupByNameKey [] [c2ItemY, c2ItemX, c2ItemZ] = _
    rw [dedupByNameKey_cons, if_neg h1, dedupByNameKey_cons, if_neg h2,
      dedupByNameKey_cons, if_pos h3, dedupByNameKey_nil]
  have hval : validateMenuItemsWithHeuristicsV5 c2Input = [c2ItemY, c2ItemX] := by
    simp only [validateMenuItemsWithHeuristicsV5, hd]
    norm_num [c2ItemY, c2ItemX, List.filter_cons, List.filter_nil,
      decide_eq_true_eq]
  refine ⟨hval, ?_, by decide, by decide, ?_, ?_⟩
  · intro h
    exact absurd (congrArg MenuItem.name h) (by decide)
  · rw [hval]
    intro hmem
    rcases List.mem_cons.mp hmem with h | h
    · exact absurd (congrArg MenuItem.name h) (by decide)
    · rcases List.mem_cons.mp h with h2 | h2
      · exact absurd (congrArg MenuItem.name h2) (by decide)
      · exact absurd h2 (List.not_mem_nil _)
  · show (0.5 : ℚ) < 0.7
    norm_num

theorem dedupByNameKey_of_fresh :
    ∀ (items : List MenuItem) (seen : List (List Char)),
      items.Pairwise (fun a b => nameKeyV5 a.name ≠ nameKeyV5 b.name) →
      (∀ it ∈ items, nameKeyV5 it.name ∉ seen) →
      dedupByNameKey seen items = items := by
  intro items
  induction items with
  | nil => intro seen _ _; rfl
  | cons it rest ih =>
    intro seen hpw hfresh
    rw [dedupByNameKey_cons, if_neg (hfresh it (List.mem_cons_self _ _))]
    congr 1
    refine ih _ (List.pairwise_cons.mp hpw).2 ?_
    intro b hb hin
    rcases List.mem_cons.mp hin with h | h
    · exact (List.pairwise_cons.mp hpw).1 b hb h.symm
    · exact hfresh b (List.mem_cons_of_mem _ hb) h

/-- The outlier rule exactly as claim C1 words it — price exceeds
    mean + 3·stdev over the priced items.  Since the standard deviation is
    nonnegative, `p > μ + 3σ` is equivalent to `p > μ ∧ (p-μ)² > 9σ²`,
    which avoids square roots and is exact over ℚ (σ² is the population
    variance of the price list). -/
def specMeanPlus3StdevOutlier (p : ℚ) (prices : List ℚ) : Prop :=
  prices.sum / prices.length < p ∧
    9 * ((prices.map
        (fun q => (q - prices.sum / prices.length) ^ 2)).sum /
      prices.length) < (p - prices.sum / prices.length) ^ 2

/-- The one high-priced item of the C1 counterexample. -/
def c1Big : MenuItem := { name := str "big", price := 8 }

/-- C1 counterexample input: nine $1 items and one $8 item, all names
    distinct. -/
def c1Input : List MenuItem :=
  [{ name := str "n1", price := 1 }, { name := str "n2", price := 1 },
   { name := str "n3", price := 1 }, { name := str "n4", price := 1 },
   { name := str "n5", price := 1 }, { name := str "n6", price := 1 },
   { name := str "n7", price := 1 }, { name := str "n8", price := 1 },
   { name := str "n9", price := 1 }, c1Big]

/-- C1 counterexample: the claim says the pipeline drops exactly the items
    whose price exceeds mean + 3·stdev of the priced items.  On ten items
    priced [1,1,1,1,1,1,1,1,1,8] the mean is 1.7 and the population stdev
    is 2.1, so mean + 3·stdev = 8 and the $8 item does NOT exceed it — yet
    V5 `validateMenuItemsWithHeuristics` drops it, because the code
    actually removes every item with price ≥ 3 × mean = 5.1 and never
    computes a standard deviation. -/
theorem price_distribution_counterexample :
    c1Big ∈ c1Input ∧
    ((dedupByNameKey [] c1Input).map MenuItem.price).filter
        (fun p => decide (0 < p)) =
      [1, 1, 1, 1, 1, 1, 1, 1, 1, 8] ∧
    c1Big ∉ validateMenuItemsWithHeuristicsV5 c1Input ∧
    ¬ specMeanPlus3StdevOutlier c1Big.price
        [1, 1, 1, 1, 1, 1, 1, 1, 1, 8] := by
  have hd : dedupByNameKey [] c1Input = c1Input :=
    dedupByNameKey_of_fresh c1Input [] (by decide)
      (fun it _ => List.not_mem_nil _)
  have hprices : ((dedupByNameKey [] c1Input).map MenuItem.price).filter
      (fun p => decide (0 < p)) = [1, 1, 1, 1, 1, 1, 1, 1, 1, 8] := by
    rw [hd]
    norm_num [c1Input, c1Big, List.filter_cons, decide_eq_true_eq]
  have hval : validateMenuItemsWithHeuristicsV5 c1Input =
      [{ name := str "n1", price := 1 }, { name := str "n2", price := 1 },
       { name := str "n3", price := 1 }, { name := str "n4", price := 1 },
       { name := str "n5", price := 1 }, { name := str "n6", price := 1 },
       { name := str "n7", price := 1 }, { name := str "n8", price := 1 },
       { name := str "n9", price := 1 }] := by
    simp only [validateMenuItemsWithHeuristicsV5, hd, hprices]
    norm_num [c1Input, c1Big, List.filter_cons, List.sum_cons,
      decide_eq_true_eq]
  refine ⟨by simp [c1Input], hprices, ?_, ?_⟩
  · rw [hval]
    intro hmem
    have hp := List.mem_map_of_mem MenuItem.price hmem
    simp only [List.map_cons, List.map_nil] at hp
    norm_num [c1Big] at hp
  · unfold specMeanPlus3StdevOutlier
    norm_num [c1Big, List.sum_cons, List.map_cons]

/-- Scenario E input: 29 items clustered in the $8-$20 band (here $10 each,
    distinct names) and one $500 outlier. -/
def scenarioEInput : List MenuItem :=
  [{ name := str "e1", price := 10 },
   { name := str "e2", price := 10 },
   { name := str "e3", price := 10 },
   { name := str "e4", price := 10 },
   { name := str "e5", price := 10 },
   { name := str "e6", price := 10 },
   { name := str "e7", price := 10 },
   { name := str "e8", price := 10 },
   { name := str "e9", price := 10 },
   { name := str "e10", price := 10 },
   { name := str "e11", price := 10 },
   { name := str "e12", price := 10 },
   { name := str "e13", price := 10 },
   { name := str "e14", price := 10 },
   { name := str "e15", price := 10 },
   { name := str "e16", price := 10 },
   { name := str "e17", price := 10 },
   { name := str "e18", price := 10 },
   { name := str "e19", price := 10 },
   { name := str "e20", price := 10 },
   { name := str "e21", price := 10 },
   { name := str "e22", price := 10 },
   { name := str "e23", price := 10 },
   { name := str "e24", price := 10 },
   { name := str "e25", price := 10 },
   { name := str "e26", price := 10 },
   { name := str "e27", price := 10 },
   { name := str "e28", price := 10 },
   { name := str "e29", price := 10 },
   { name := str "truffle", price := 500 }]

/-- Scenario E expected survivors: the 29 clustered items. -/
def scenarioEKept : List MenuItem :=
  [{ name := str "e1", price := 10 },
   { name := str "e2", price := 10 },
   { name := str "e3", price := 10 },
   { name := str "e4", price := 10 },
   { name := str "e5", price := 10 },
   { name := str "e6", price := 10 },
   { name := str "e7", price := 10 },
   { name := str "e8", price := 10 },
   { name := str "e9", price := 10 },
   { name := str "e10", price := 10 },
   { name := str "e11", price := 10 },
   { name := str "e12", price := 10 },
   { name := str "e13", price := 10 },
   { name := str "e14", price := 10 },
   { name := str "e15", price := 10 },
   { name := str "e16", price := 10 },
   { name := str "e17", price := 10 },
   { name := str "e18", price := 10 },
   { name := str "e19", price := 10 },
   { name := str "e20", price := 10 },
   { name := str "e21", price := 10 },
   { name := str "e22", price := 10 },
   { name := str "e23", price := 10 },
   { name := str "e24", price := 10 },
   { name := str "e25", price := 10 },
   { name := str "e26", price := 10 },
   { name := str "e27", price := 10 },
   { name := str "e28", price := 10 },
   { name := str "e29", price := 10 }]

/-! ### Phase 3 per-region item parsing -/

/-- The price-locating loop shared by the parsers: scan the member texts in
    order, return the first text with a `\$(\d+\.?\d*)` match together with
    the parsed value (the loop `break`s at the first matching text, even if
    its value parses to 0). -/
def findFirstPrice : List (List Char) → Option (ℚ × List Char)
  | [] => none
  | t :: ts =>
    match firstPriceMatch t with
    | some v => some (v, t)
    | none => findFirstPrice ts

/-- Any of the given substrings occurs (models regex alternation
    `a|b|...` used as a boolean test). -/
def containsAny (pats : List (List Char)) (s : List Char) : Bool :=
  pats.any (fun p => containsSub p s)

/-- V6 `categorizeItem(name, description)`. -/
def categorizeItemV6 (name description : List Char) : List Char :=
  let text := toLowerList (name ++ [' '] ++ description)
  if containsAny [str "salad", str "green", str "lettuce", str "spinach"]
      text then str "Salads"
  else if containsAny [str "soup", str "broth", str "bisque", str "chowder"]
      text then str "Soups"
  else if containsAny [str "appetizer", str "starter", str "wing",
      str "nachos", str "dip"] text then str "Appetizers"
  else if containsAny [str "burger", str "sandwich", str "wrap",
      str "panini"] text then str "Sandwiches"
  else if containsAny [str "pizza", str "pasta", str "spaghetti",
      str "lasagna"] text then str "Italian"
  else if containsAny [str "steak", str "chicken", str "fish", str "salmon",
      str "beef", str "pork"] text then str "Entrees"
  else if containsAny [str "dessert", str "cake", str "pie",
      str "ice cream", str "chocolate"] text then str "Desserts"
  else if containsAny [str "coffee", str "tea", str "soda", str "juice",
      str "beer", str "wine"] text then str "Beverages"
  else str "Other"

/-- V6 `estimateServingSize(name, description)`. -/
def estimateServingSizeV6 (name description : List Char) : ℚ :=
  let text := toLowerList (name ++ [' '] ++ description)
  if containsAny [str "salad", str "soup", str "appetizer"] text then 1
  else if containsAny [str "burger", str "sandwich", str "entree",
      str "main"] text then 2
  else if containsAny [str "pizza", str "pasta", str "sharing",
      str "platter"] text then 4
  else if containsAny [str "dessert", str "side"] text then 1
  else 2

/-- Strip the leading-number prefix `^\d+\.?\s*` (requires at least one
    leading digit; then an optional dot and any whitespace). -/
def stripLeadingNumber (s : List Char) : List Char :=
  match s with
  | c :: _ =>
    if c.isDigit then
      let rest := s.dropWhile Char.isDigit
      let rest2 := match rest with
                   | '.' :: r => r
                   | r => r
      rest2.dropWhile Char.isWhitespace
    else s
  | [] => s

/-- JavaScript `replace(/^[a-z]/, c => c.toUpperCase())`. -/
def capitalizeFirst (s : List Char) : List Char :=
  match s with
  | c :: rest =>
    if Char.ofNat 97 ≤ c ∧ c ≤ Char.ofNat 122 then c.toUpper :: rest
    else c :: rest
  | [] => []

/-- V6 `cleanItemName(name)`: strip a leading item number, collapse
    whitespace, trim, capitalize the first letter. -/
def cleanItemNameV6 (name : List Char) : List Char :=
  capitalizeFirst (trimStr (collapseWsAux false (stripLeadingNumber name)))

/-- The `reduce` without seed selecting the shortest text (first element
    is the accumulator; strict comparison keeps the earlier text on
    ties). -/
def shortestOf (n0 : List Char) (nrest : List (List Char)) : List Char :=
  nrest.foldl
    (fun shortest t => if t.length < shortest.length then t else shortest) n0

/-- The `reduce` with seed `''` selecting the longest text among those
    different from the chosen name. -/
def longestRemaining (name : List Char) (l : List (List Char)) : List Char :=
  (l.filter (fun t => decide (t ≠ name))).foldl
    (fun longest t => if longest.length < t.length then t else longest) []

/-- V6 `parseMenuItemFromRegion(region, index)` after the
    Chinese-restaurant-mode dispatch: anchor on the first price-bearing
    text, reject a zero price, take the SHORTEST remaining text (value
    different from the price text, length > 2) as the name and the LONGEST
    of the others as the description. -/
def parseMenuItemFromRegionCoreV6 (region : MenuRegion) (index : ℕ) :
    Option MenuItem :=
  let texts := region.items.map TextItem.text
  match findFirstPrice texts with
  | none => none
  | some (price, priceText) =>
    if price = 0 then none
    else
      let nonPriceTexts := texts.filter
        (fun t => decide (t ≠ priceText) && decide (2 < t.length))
      match nonPriceTexts with
      | [] => none
      | n0 :: nrest =>
        let name := shortestOf n0 nrest
        let description := longestRemaining name (n0 :: nrest)
        some { id := str "item-" ++ (Nat.repr index).toList,
               name := cleanItemNameV6 name,
               price,
               description :=
                 if description = [] then none else some description,
               category := categorizeItemV6 name description,
               servingSize := estimateServingSizeV6 name description,
               regionImage := region.regionImage,
               confidence := region.confidence }

/-- CJK unified ideograph test `[一-鿿]`. -/
def containsChineseCharacters (s : List Char) : Bool :=
  s.any (fun c => 0x4E00 ≤ c.toNat && c.toNat ≤ 0x9FFF)

/-- Latin letter test `[a-zA-Z]`. -/
def hasEnglishChars (s : List Char) : Bool :=
  s.any (fun c =>
    (Char.ofNat 97 ≤ c && c ≤ Char.ofNat 122) ||
    (Char.ofNat 65 ≤ c && c ≤ Char.ofNat 90))

/-- The name-choice loop of V6 `parseChineseMenuItemFromRegion`: a
    bilingual text wins immediately (`break`); otherwise the first text
    (Chinese-only or not) fills an empty slot and scanning continues. -/
def chooseChineseName : List (List Char) → List Char → List Char
  | [], name => name
  | t :: ts, name =>
    if containsChineseCharacters t && hasEnglishChars t then t
    else if containsChineseCharacters t && name.isEmpty then
      chooseChineseName ts t
    else if name.isEmpty then chooseChineseName ts t
    else chooseChineseName ts name

/-- V6 `cleanChineseName(name)`: like `cleanItemName` but without the
    capitalization step. -/
def cleanChineseName (name : List Char) : List Char :=
  trimStr (collapseWsAux false (stripLeadingNumber name))

/-- V6 `parseChineseMenuItemFromRegion(region, index)`. -/
def parseChineseMenuItemFromRegion (region : MenuRegion) (index : ℕ) :
    Option MenuItem :=
  let texts := region.items.map TextItem.text
  match findFirstPrice texts with
  | none => none
  | some (price, priceText) =>
    if price = 0 then none
    else
      let nonPriceTexts := texts.filter
        (fun t => decide (t ≠ priceText) && decide (2 < t.length))
      match nonPriceTexts with
      | [] => none
      | n0 :: nrest =>
        let picked := chooseChineseName (n0 :: nrest) []
        let name := if picked.isEmpty then n0 else picked
        some { id := str "chinese-item-" ++ (Nat.repr index).toList,
               name := cleanChineseName name,
               price,
               description := none,
               category := categorizeItemV6 name [],
               servingSize := estimateServingSizeV6 name [],
               regionImage := region.regionImage,
               confidence := region.confidence }

/-- V6 `parseMenuItemFromRegion(region, index)` including the
    Chinese-restaurant-mode dispatch at its top. -/
def parseMenuItemFromRegionV6 (chineseMode : Bool) (region : MenuRegion)
    (index : ℕ) : Option MenuItem :=
  if chineseMode then parseChineseMenuItemFromRegion region index
  else parseMenuItemFromRegionCoreV6 region index

theorem ratOfParts_nonneg (a b : List Char) : 0 ≤ ratOfParts a b := by
  unfold ratOfParts
  positivity

theorem firstPriceMatch_nonneg :
    ∀ (s : List Char) (v : ℚ), firstPriceMatch s = some v → 0 ≤ v := by
  intro s
  induction s with
  | nil => intro v h; simp [firstPriceMatch] at h
  | cons c rest ih =>
    intro v h
    simp only [firstPriceMatch] at h
    split_ifs at h with hc
    · split at h
      · exact ih v h
      · split at h
        · rw [Option.some_inj] at h
          rw [← h]
          exact ratOfParts_nonneg _ _
        · rw [Option.some_inj] at h
          rw [← h]
          exact ratOfParts_nonneg _ _
    · exact ih v h

theorem findFirstPrice_nonneg :
    ∀ (ts : List (List Char)) (v : ℚ) (t : List Char),
      findFirstPrice ts = some (v, t) → 0 ≤ v := by
  intro ts
  induction ts with
  | nil => intro v t h; simp [findFirstPrice] at h
  | cons t0 rest ih =>
    intro v t h
    simp only [findFirstPrice] at h
    cases hm : firstPriceMatch t0 with
    | none => rw [hm] at h; exact ih v t h
    | some v0 =>
      rw [hm] at h
      rw [Option.some_inj] at h
      have hv : v0 = v := congrArg Prod.fst h
      rw [← hv]
      exact firstPriceMatch_nonneg t0 v0 hm

theorem findFirstPrice_none :
    ∀ (ts : List (List Char)),
      (∀ t ∈ ts, firstPriceMatch t = none) → findFirstPrice ts = none := by
  intro ts
  induction ts with
  | nil => intro _; rfl
  | cons t0 rest ih =>
    intro h
    simp only [findFirstPrice]
    rw [h t0 (List.mem_cons_self _ _)]
    exact ih (fun t ht => h t (List.mem_cons_of_mem _ ht))

theorem parseCore_price_pos (region : MenuRegion) (index : ℕ)
    (item : MenuItem)
    (h : parseMenuItemFromRegionCoreV6 region index = some item) :
    0 < item.price := by
  simp only [parseMenuItemFromRegionCoreV6] at h
  cases hfind : findFirstPrice (region.items.map TextItem.text) with
  | none => rw [hfind] at h; simp at h
  | some pv =>
    obtain ⟨v, ptext⟩ := pv
    rw [hfind] at h
    simp only [] at h
    split_ifs at h with hv
    have hvpos : 0 < v :=
      lt_of_le_of_ne (findFirstPrice_nonneg _ v ptext hfind) (Ne.symm hv)
    split at h
    · simp at h
    · rw [Option.some_inj] at h
      rw [← h]
      exact hvpos

theorem parseChinese_price_pos (region : MenuRegion) (index : ℕ)
    (item : MenuItem)
    (h : parseChineseMenuItemFromRegion region index = some item) :
    0 < item.price := by
  simp only [parseChineseMenuItemFromRegion] at h
  cases hfind : findFirstPrice (region.items.map TextItem.text) with
  | none => rw [hfind] at h; simp at h
  | some pv =>
    obtain ⟨v, ptext⟩ := pv
    rw [hfind] at h
    simp only [] at h
    split_ifs at h with hv
    have hvpos : 0 < v :=
      lt_of_le_of_ne (findFirstPrice_nonneg _ v ptext hfind) (Ne.symm hv)
    split at h
    · simp at h
    · rw [Option.some_inj] at h
      rw [← h]
      exact hvpos

theorem parseCore_none_of_short (region : MenuRegion) (index : ℕ)
    (hshort : ∀ t ∈ region.items.map TextItem.text, t.length ≤ 2) :
    parseMenuItemFromRegionCoreV6 region index = none := by
  simp only [parseMenuItemFromRegionCoreV6]
  cases hfind : findFirstPrice (region.items.map TextItem.text) with
  | none => rfl
  | some pv =>
    obtain ⟨v, ptext⟩ := pv
    have hnil : (region.items.map TextItem.text).filter
        (fun t => decide (t ≠ ptext) && decide (2 < t.length)) = [] := by
      rw [List.filter_eq_nil_iff]
      intro t ht
      simp only [Bool.and_eq_true, decide_eq_true_eq, not_and]
      intro _
      exact not_lt.mpr (hshort t ht)
    simp only []
    split_ifs with hv
    · rfl
    · rw [hnil]

theorem parseChinese_none_of_short (region : MenuRegion) (index : ℕ)
    (hshort : ∀ t ∈ region.items.map TextItem.text, t.length ≤ 2) :
    parseChineseMenuItemFromRegion region index = none := by
  simp only [parseChineseMenuItemFromRegion]
  cases hfind : findFirstPrice (region.items.map TextItem.text) with
  | none => rfl
  | some pv =>
    obtain ⟨v, ptext⟩ := pv
    have hnil : (region.items.map TextItem.text).filter
        (fun t => decide (t ≠ ptext) && decide (2 < t.length)) = [] := by
      rw [List.filter_eq_nil_iff]
      intro t ht
      simp only [Bool.and_eq_true, decide_eq_true_eq, not_and]
      intro _
      exact not_lt.mpr (hshort t ht)
    simp only []
    split_ifs with hv
    · rfl
    · rw [hnil]

/-- C10: region-to-item parsing never emits a priceless item — in both
    modes of the V6 parser, (i) every returned MenuItem has price strictly
    greater than 0, (ii) when no member token matches the dollar-price
    pattern the parser returns null, and (iii) when no usable (length > 2)
    name token exists the parser returns null. -/
theorem parse_no_priceless_item :
    (∀ (chineseMode : Bool) (region : MenuRegion) (index : ℕ)
        (item : MenuItem),
      parseMenuItemFromRegionV6 chineseMode region index = some item →
      0 < item.price) ∧
    (∀ (chineseMode : Bool) (region : MenuRegion) (index : ℕ),
      (∀ t ∈ region.items.map TextItem.text, firstPriceMatch t = none) →
      parseMenuItemFromRegionV6 chineseMode region index = none) ∧
    (∀ (chineseMode : Bool) (region : MenuRegion) (index : ℕ),
      (∀ t ∈ region.items.map TextItem.text, t.length ≤ 2) →
      parseMenuItemFromRegionV6 chineseMode region index = none) := by
  refine ⟨?_, ?_, ?_⟩
  · intro mode region index item h
    unfold parseMenuItemFromRegionV6 at h
    split_ifs at h
    · exact parseChinese_price_pos region index item h
    · exact parseCore_price_pos region index item h
  · intro mode region index hnone
    have hfind : findFirstPrice (region.items.map TextItem.text) = none :=
      findFirstPrice_none _ hnone
    unfold parseMenuItemFromRegionV6
    split_ifs
    · simp only [parseChineseMenuItemFromRegion]
      rw [hfind]
    · simp only [parseMenuItemFromRegionCoreV6]
      rw [hfind]
  · intro mode region index hshort
    unfold parseMenuItemFromRegionV6
    split_ifs
    · exact parseChinese_none_of_short region index hshort
    · exact parseCore_none_of_short region index hshort

theorem parseCoreV6_spec (region : MenuRegion) (index : ℕ)
    (v : ℚ) (ptext n0 : List Char) (nrest : List (List Char))
    (hf : findFirstPrice (region.items.map TextItem.text) = some (v, ptext))
    (hv : v ≠ 0)
    (hnp : (region.items.map TextItem.text).filter
        (fun t => decide (t ≠ ptext) && decide (2 < t.length)) = n0 :: nrest) :
    parseMenuItemFromRegionCoreV6 region index =
      some { id := str "item-" ++ (Nat.repr index).toList,
             name := cleanItemNameV6 (shortestOf n0 nrest),
             price := v,
             description :=
               if longestRemaining (shortestOf n0 nrest) (n0 :: nrest) = []
               then none
               else some (longestRemaining (shortestOf n0 nrest) (n0 :: nrest)),
             category := categorizeItemV6 (shortestOf n0 nrest)
               (longestRemaining (shortestOf n0 nrest) (n0 :: nrest)),
             servingSize := estimateServingSizeV6 (shortestOf n0 nrest)
               (longestRemaining (shortestOf n0 nrest) (n0 :: nrest)),
             regionImage := region.regionImage,
             confidence := region.confidence } := by
  simp only [parseMenuItemFromRegionCoreV6, hf]
  rw [if_neg hv]
  simp only [hnp]

/-- The region of Scenario A: name, description, and price tokens. -/
def scenarioARegion : MenuRegion :=
  { items := [{ text := str "Grilled Salmon Fillet" },
              { text := str "Fresh Atlantic salmon with lemon butter sauce" },
              { text := str "$24.95" }],
    confidence := 0.8 }

/-- The MenuItem the V6 parser extracts from the Scenario A region. -/
def scenarioAItemV6 : MenuItem :=
  { id := str "item-0",
    name := str "Grilled Salmon Fillet",
    price := 499/20,
    description := some (str "Fresh Atlantic salmon with lemon butter sauce"),
    category := str "Entrees",
    servingSize := 2,
    regionImage := none,
    confidence := 0.8 }

theorem scenarioA_priceValue : ratOfParts (str "24") (str "95") = 499/20 := by
  have h1 : natOfDigits (str "24") = 24 := by decide
  have h2 : natOfDigits (str "95") = 95 := by decide
  have h3 : (str "95").length = 2 := by decide
  rw [ratOfParts, h1, h2, h3]
  norm_num

theorem scenarioA_parseV6 :
    parseMenuItemFromRegionCoreV6 scenarioARegion 0 = some scenarioAItemV6 := by
  have hf : findFirstPrice (scenarioARegion.items.map TextItem.text) =
      some ((499/20 : ℚ), str "$24.95") := by
    rw [show findFirstPrice (scenarioARegion.items.map TextItem.text) =
        some (ratOfParts (str "24") (str "95"), str "$24.95") from rfl,
      scenarioA_priceValue]
  have hnp : (scenarioARegion.items.map TextItem.text).filter
      (fun t => decide (t ≠ str "$24.95") && decide (2 < t.length)) =
      str "Grilled Salmon Fillet" ::
        [str "Fresh Atlantic salmon with lemon butter sauce"] := by decide
  rw [parseCoreV6_spec scenarioARegion 0 (499/20) (str "$24.95") _ _ hf
    (by norm_num) hnp]
  have hshort : shortestOf (str "Grilled Salmon Fillet")
      [str "Fresh Atlantic salmon with lemon butter sauce"] =
      str "Grilled Salmon Fillet" := by decide
  have hlong : longestRemaining (str "Grilled Salmon Fillet")
      (str "Grilled Salmon Fillet" ::
        [str "Fresh Atlantic salmon with lemon butter sauce"]) =
      str "Fresh Atlantic salmon with lemon butter sauce" := by decide
  rw [hshort, hlong]
  have hclean : cleanItemNameV6 (str "Grilled Salmon Fillet") =
      str "Grilled Salmon Fillet" := by decide
  have hcat : categorizeItemV6 (str "Grilled Salmon Fillet")
      (str "Fresh Atlantic salmon with lemon butter sauce") =
      str "Entrees" := by decide
  have hserv : estimateServingSizeV6 (str "Grilled Salmon Fillet")
      (str "Fresh Atlantic salmon with lemon butter sauce") = 2 := by
    simp only [estimateServingSizeV6]
    rw [if_neg (by decide), if_neg (by decide), if_neg (by decide),
      if_neg (by decide)]
  rw [hclean, hcat, hserv]
  have hdesc : (str "Fresh Atlantic salmon with lemon butter sauce") ≠ [] := by
    decide
  rw [if_neg hdesc]
  have hid : str "item-" ++ (Nat.repr 0).toList = str "item-0" := by decide
  rw [hid]
  rfl

/-- Remove the FIRST occurrence of `\$\d+\.?\d*` (V5 `cleanItemName` uses
    a non-global replace); the removed extent matches the capture logic of
    `firstPriceMatch`. -/
def removeFirstDollarPrice : List Char → List Char
  | [] => []
  | c :: rest =>
    if c = '$' then
      match spanDigits rest with
      | ([], _) => c :: removeFirstDollarPrice rest
      | (_ :: _, rest1) =>
        match rest1 with
        | '.' :: rest2 => rest2.dropWhile Char.isDigit
        | _ => rest1
    else c :: removeFirstDollarPrice rest

/-- The bullet characters of the class `[•\-\*]`. -/
def isBulletChar (c : Char) : Bool :=
  c = Char.ofNat 8226 || c = '-' || c = '*'

/-- JavaScript `replace(/^[•\-\*]+\s*/, '')`: requires at least one leading bullet. -/
def stripLeadingBullets (s : List Char) : List Char :=
  let s1 := s.dropWhile isBulletChar
  if s1 = s then s else s1.dropWhile Char.isWhitespace

/-- JavaScript `replace(/\s*[•\-\*]+$/, '')`: requires at least one trailing
    bullet. -/
def stripTrailingBullets (s : List Char) : List Char :=
  let r := s.reverse
  let r1 := r.dropWhile isBulletChar
  if r1 = r then s else (r1.dropWhile Char.isWhitespace).reverse

/-- V5 `cleanItemName(name)`: drop the first price substring, collapse
    whitespace, trim, strip leading and trailing bullet markers. -/
def cleanItemNameV5 (name : List Char) : List Char :=
  stripTrailingBullets (stripLeadingBullets
    (trimStr (collapseWsAux false (removeFirstDollarPrice name))))

/-- Occurrence of `pat` followed by a word boundary (`pat\b`): the match
    must be followed by the end of the string or a non-word character. -/
def hasSubEndB (pat : List Char) : List Char → Bool
  | [] => false
  | c :: rest =>
    (isPrefixB pat (c :: rest) &&
      (match (c :: rest).drop pat.length with
       | [] => true
       | d :: _ => !isWordChar d)) || hasSubEndB pat rest

/-- V5 `categorizeItem(name, description)` (the `app\b` alternative of the
    first pattern carries a word boundary). -/
def categorizeItemV5 (name description : List Char) : List Char :=
  let text := toLowerList (name ++ [' '] ++ description)
  if (containsAny [str "appetizer", str "starter"] text ||
      hasSubEndB (str "app") text ||
      containsAny [str "dip", str "wing", str "nachos", str "salad"] text)
    then str "Appetizers"
  else if containsAny [str "burger", str "sandwich", str "wrap", str "pizza",
      str "pasta", str "steak", str "chicken", str "fish", str "entree",
      str "main"] text then str "Main Courses"
  else if containsAny [str "dessert", str "cake", str "pie", str "ice cream",
      str "sundae", str "cookie"] text then str "Desserts"
  else if containsAny [str "drink", str "beverage", str "soda", str "beer",
      str "wine", str "cocktail", str "coffee", str "tea"] text
    then str "Beverages"
  else if containsAny [str "side", str "fries", str "rice",
      str "vegetables", str "potato"] text then str "Sides"
  else str "Other"

/-- V5 `estimateServingSize(name, description)`. -/
def estimateServingSizeV5 (name description : List Char) : ℚ :=
  let text := toLowerList (name ++ [' '] ++ description)
  if containsAny [str "appetizer", str "starter", str "side"] text then 2
  else if containsAny [str "salad", str "soup"] text then 1
  else if containsAny [str "pizza", str "large", str "family"] text then 4
  else if containsAny [str "sharing", str "platter"] text then 6
  else 1

/-- V5 `parseMenuItemFromRegionWithImage(region, pdf)`: trims and drops
    empty member texts, requires at least two, anchors on the first
    price-bearing text (keeping price 0 when none matches — no null
    return), removes EVERY text matching the price pattern, and assigns
    positionally: first remaining text is the name, the rest join into the
    description.  The rendered thumbnail is an external effect, passed here
    as the `regionImage` argument (`undefined` on failure). -/
def parseMenuItemFromRegionWithImageV5 (region : MenuRegion)
    (regionImage : Option (List Char)) : Option MenuItem :=
  let texts := (region.items.map (fun it => trimStr it.text)).filter
    (fun t => decide (0 < t.length))
  if texts.length < 2 then none
  else
    let price := ((findFirstPrice texts).map Prod.fst).getD 0
    let nonPriceTexts := texts.filter (fun t => !hasDollarPrice t)
    let np := match nonPriceTexts with
              | n0 :: nrest => (n0, List.intercalate [' '] nrest)
              | [] => (texts.headD [], [])
    some { id := str "item-" ++ (Nat.repr region.pageNumber).toList ++
             str "-" ++ (Int.repr (Int.floor region.boundingBox.x)).toList ++
             str "-" ++ (Int.repr (Int.floor region.boundingBox.y)).toList,
           name := cleanItemNameV5 np.1,
           price,
           description := if np.2 = [] then none else some np.2,
           category := categorizeItemV5 np.1 np.2,
           servingSize := estimateServingSizeV5 np.1 np.2,
           regionImage := regionImage,
           confidence := region.confidence }

theorem parseV5_spec (region : MenuRegion) (image : Option (List Char))
    (ts : List (List Char)) (n0 : List Char) (nrest : List (List Char))
    (hts : (region.items.map (fun it => trimStr it.text)).filter
        (fun t => decide (0 < t.length)) = ts)
    (hlen : ¬ ts.length < 2)
    (hnp : ts.filter (fun t => !hasDollarPrice t) = n0 :: nrest) :
    parseMenuItemFromRegionWithImageV5 region image =
      some { id := str "item-" ++ (Nat.repr region.pageNumber).toList ++
               str "-" ++
               (Int.repr (Int.floor region.boundingBox.x)).toList ++
               str "-" ++
               (Int.repr (Int.floor region.boundingBox.y)).toList,
             name := cleanItemNameV5 n0,
             price := ((findFirstPrice ts).map Prod.fst).getD 0,
             description := if List.intercalate [' '] nrest = [] then none
               else some (List.intercalate [' '] nrest),
             category := categorizeItemV5 n0 (List.intercalate [' '] nrest),
             servingSize := estimateServingSizeV5 n0
               (List.intercalate [' '] nrest),
             regionImage := image,
             confidence := region.confidence } := by
  simp only [parseMenuItemFromRegionWithImageV5, hts, hnp]
  rw [if_neg hlen]

/-- The MenuItem the V5 parser extracts from the Scenario A region. -/
def scenarioAItemV5 : MenuItem :=
  { id := str "item-1-0-0",
    name := str "Grilled Salmon Fillet",
    price := 499/20,
    description := some (str "Fresh Atlantic salmon with lemon butter sauce"),
    category := str "Other",
    servingSize := 1,
    regionImage := none,
    confidence := 0.8 }

theorem scenarioA_parseV5 :
    parseMenuItemFromRegionWithImageV5 scenarioARegion none =
      some scenarioAItemV5 := by
  have hts : (scenarioARegion.items.map (fun it => trimStr it.text)).filter
      (fun t => decide (0 < t.length)) =
      [str "Grilled Salmon Fillet",
       str "Fresh Atlantic salmon with lemon butter sauce",
       str "$24.95"] := by decide
  have hnp : ([str "Grilled Salmon Fillet",
      str "Fresh Atlantic salmon with lemon butter sauce",
      str "$24.95"]).filter (fun t => !hasDollarPrice t) =
      str "Grilled Salmon Fillet" ::
        [str "Fresh Atlantic salmon with lemon butter sauce"] := by decide
  rw [parseV5_spec scenarioARegion none _ _ _ hts (by decide) hnp]
  have hprice : ((findFirstPrice [str "Grilled Salmon Fillet",
      str "Fresh Atlantic salmon with lemon butter sauce",
      str "$24.95"]).map Prod.fst).getD 0 = 499/20 := by
    rw [show findFirstPrice [str "Grilled Salmon Fillet",
        str "Fresh Atlantic salmon with lemon butter sauce",
        str "$24.95"] =
        some (ratOfParts (str "24") (str "95"), str "$24.95") from rfl]
    simp [scenarioA_priceValue]
  rw [hprice]
  have hinter : List.intercalate [' ']
      [str "Fresh Atlantic salmon with lemon butter sauce"] =
      str "Fresh Atlantic salmon with lemon butter sauce" := by decide
  rw [hinter]
  have hclean : cleanItemNameV5 (str "Grilled Salmon Fillet") =
      str "Grilled Salmon Fillet" := by decide
  have hcat : categorizeItemV5 (str "Grilled Salmon Fillet")
      (str "Fresh Atlantic salmon with lemon butter sauce") =
      str "Other" := by decide
  have hserv : estimateServingSizeV5 (str "Grilled Salmon Fillet")
      (str "Fresh Atlantic salmon with lemon butter sauce") = 1 := by
    simp only [estimateServingSizeV5]
    rw [if_neg (by decide), if_neg (by decide), if_neg (by decide),
      if_neg (by decide)]
  rw [hclean, hcat, hserv,
    if_neg (by decide :
      ¬ (str "Fresh Atlantic salmon with lemon butter sauce") = [])]
  have hid : str "item-" ++ (Nat.repr scenarioARegion.pageNumber).toList ++
      str "-" ++
      (Int.repr (Int.floor scenarioARegion.boundingBox.x)).toList ++
      str "-" ++
      (Int.repr (Int.floor scenarioARegion.boundingBox.y)).toList =
      str "item-1-0-0" := by
    rw [show scenarioARegion.boundingBox.x = 0 from rfl,
      show scenarioARegion.boundingBox.y = 0 from rfl, Int.floor_zero]
    decide
  rw [hid]
  rfl

/-- The region of the C5 counterexample: the FIRST non-price token is the
    long `Bcdefgh`, the shortest is `Abc`. -/
def c5Region : MenuRegion :=
  { items := [{ text := str "Bcdefgh" }, { text := str "Abc" },
              { text := str "$5.00" }],
    confidence := 0.8 }

/-- C5 counterexample: the claim asserts that the FIRST remaining
    (non-price) token becomes the item name; in the V6 parser the name is
    instead the SHORTEST usable non-price text: on a region with texts
    `["Bcdefgh", "Abc", "$5.00"]` the first remaining token is `Bcdefgh`,
    yet the parsed item's name is `Abc`. -/
theorem componentExtraction_counterexample :
    c5Region.items.map TextItem.text =
      [str "Bcdefgh", str "Abc", str "$5.00"] ∧
    ((c5Region.items.map TextItem.text).filter
        (fun t => !hasDollarPrice t)).headD [] = str "Bcdefgh" ∧
    (parseMenuItemFromRegionCoreV6 c5Region 0).map MenuItem.name =
      some (str "Abc") ∧
    str "Abc" ≠ str "Bcdefgh" := by
  have hf : findFirstPrice (c5Region.items.map TextItem.text) =
      some ((5 : ℚ), str "$5.00") := by
    rw [show findFirstPrice (c5Region.items.map TextItem.text) =
        some (ratOfParts (str "5") (str "00"), str "$5.00") from rfl]
    have hr : ratOfParts (str "5") (str "00") = 5 := by
      have h1 : natOfDigits (str "5") = 5 := by decide
      have h2 : natOfDigits (str "00") = 0 := by decide
      have h3 : (str "00").length = 2 := by decide
      rw [ratOfParts, h1, h2, h3]
      norm_num
    rw [hr]
  have hnp : (c5Region.items.map TextItem.text).filter
      (fun t => decide (t ≠ str "$5.00") && decide (2 < t.length)) =
      str "Bcdefgh" :: [str "Abc"] := by decide
  have hparse := parseCoreV6_spec c5Region 0 5 (str "$5.00") _ _ hf
    (by norm_num) hnp
  refine ⟨by decide, by decide, ?_, by decide⟩
  rw [hparse]
  have hshort : shortestOf (str "Bcdefgh") [str "Abc"] = str "Abc" := by
    decide
  have hclean : cleanItemNameV6 (str "Abc") = str "Abc" := by decide
  simp only [Option.map_some']
  rw [hshort, hclean]

/-- C5 (amended): the price-anchor strategy holds, but the positional
    assignment is version-specific — the V5 parser is positional exactly as
    claimed (for every region with at least two trimmed non-empty texts and
    a non-empty non-price remainder, the FIRST remaining text becomes the
    name and all further remaining texts are concatenated, space-separated,
    into the description), while the V6 parser instead takes the SHORTEST
    usable non-price text as the name and the LONGEST of the others as the
    description; Scenario A yields the stated MenuItem (name "Grilled
    Salmon Fillet", price 24.95, non-empty description) under both
    parsers. -/
theorem priceAnchor_positional_amended :
    (∀ (region : MenuRegion) (image : Option (List Char))
        (n0 : List Char) (nrest : List (List Char)),
      2 ≤ ((region.items.map (fun it => trimStr it.text)).filter
          (fun t => decide (0 < t.length))).length →
      ((region.items.map (fun it => trimStr it.text)).filter
            (fun t => decide (0 < t.length))).filter
          (fun t => !hasDollarPrice t) = n0 :: nrest →
      (parseMenuItemFromRegionWithImageV5 region image).map
          (fun it => (it.name, it.description)) =
        some (cleanItemNameV5 n0,
          if List.intercalate [' '] nrest = [] then none
          else some (List.intercalate [' '] nrest))) ∧
    parseMenuItemFromRegionCoreV6 scenarioARegion 0 = some scenarioAItemV6 ∧
    parseMenuItemFromRegionWithImageV5 scenarioARegion none =
      some scenarioAItemV5 := by
  refine ⟨?_, scenarioA_parseV6, scenarioA_parseV5⟩
  intro region image n0 nrest h2 hnp
  rw [parseV5_spec region image _ n0 nrest rfl (not_lt.mpr h2) hnp]
  simp only [Option.map_some']

/-- Witness for C5 (amended) applying the general positional V5 statement
    at the concrete Scenario A region. -/
theorem priceAnchor_positional_amended_witness :
    (parseMenuItemFromRegionWithImageV5 scenarioARegion none).map
        (fun it => (it.name, it.description)) =
      some (cleanItemNameV5 (str "Grilled Salmon Fillet"),
        if List.intercalate [' ']
            [str "Fresh Atlantic salmon with lemon butter sauce"] = []
        then none
        else some (List.intercalate [' ']
          [str "Fresh Atlantic salmon with lemon butter sauce"])) :=
  priceAnchor_positional_amended.1 scenarioARegion none
    (str "Grilled Salmon Fillet")
    [str "Fresh Atlantic salmon with lemon butter sauce"]
    (by decide) (by decide)

/-- The region used to witness the no-price branch of C10. -/
def c10NoPriceRegion : MenuRegion :=
  { items := [{ text := str "Hello" }, { text := str "World" }] }

/-- The region used to witness the no-usable-name branch of C10. -/
def c10ShortRegion : MenuRegion :=
  { items := [{ text := str "ab" }, { text := str "$5" }] }

/-- Witness for C10 at concrete inputs: the Scenario A parse yields an
    item of positive price 24.95; a region with no dollar amount parses to
    null in Chinese mode; a region whose only texts are at most two
    characters parses to null in standard mode. -/
theorem parse_no_priceless_item_witness :
    0 < scenarioAItemV6.price ∧
    parseMenuItemFromRegionV6 true c10NoPriceRegion 0 = none ∧
    parseMenuItemFromRegionV6 false c10ShortRegion 0 = none :=
  ⟨parse_no_priceless_item.1 false scenarioARegion 0 scenarioAItemV6
      ((show parseMenuItemFromRegionV6 false scenarioARegion 0 =
          parseMenuItemFromRegionCoreV6 scenarioARegion 0 from rfl).trans
        scenarioA_parseV6),
   parse_no_priceless_item.2.1 true c10NoPriceRegion 0 (by decide),
   parse_no_priceless_item.2.2 false c10ShortRegion 0 (by decide)⟩

/-! ### Phase 2 region processing and validation (V6) -/

/-- The weight object of `params.heuristicValidationWeights`. -/
structure HeuristicWeights where
  nameLength : ℚ
  descriptionComplexity : ℚ
  priceValidation : ℚ
deriving DecidableEq, Repr

/-- The Phase 2 parameters the validator reads (absent values fall back to
    the source defaults; JavaScript `||` also treats a zero threshold as
    absent). -/
structure Phase2Params where
  heuristicValidationWeights : Option HeuristicWeights := none
  extractionQualityThreshold : Option ℚ := none
deriving DecidableEq, Repr

/-- The word alternatives of the description regex
    `\b(with|and|or|served|topped|seasoned)\b`. -/
def descWords : List (List Char) :=
  [str "with", str "and", str "or", str "served", str "topped",
   str "seasoned"]

/-- Scan for an occurrence of `w` with word boundaries on both sides,
    tracking the previous character. -/
def wordBoundaryScan (w : List Char) : Option Char → List Char → Bool
  | _, [] => false
  | prev, c :: rest =>
    ((match prev with
      | none => true
      | some p => !isWordChar p) &&
     isPrefixB w (c :: rest) &&
     (match (c :: rest).drop w.length with
      | [] => true
      | d :: _ => !isWordChar d)) || wordBoundaryScan w (some c) rest

/-- The regex `\bw\b` as a boolean test. -/
def hasWordWithBoundary (w s : List Char) : Bool := wordBoundaryScan w none s

/-- The description check of V6 `validateRegionWithHeuristics`:
    `text.length > 10 && /\b(with|and|or|served|topped|seasoned)\b/i.test(text)`. -/
def descriptionTest (t : List Char) : Bool :=
  decide (10 < t.length) &&
    descWords.any (fun w => hasWordWithBoundary w (toLowerList t))

/-- V6 `validateRegionWithHeuristics(region, params)`: weighted name /
    description / price checks against the extraction-quality threshold. -/
def validateRegionWithHeuristics (region : MenuRegion)
    (params : Phase2Params) : Bool :=
  let texts := region.items.map TextItem.text
  let hasName := texts.any
    (fun t => decide (3 ≤ t.length) && decide (t.length ≤ 30))
  let hasDescription := texts.any descriptionTest
  let hasPrice := texts.any hasDollarPrice
  let weights := params.heuristicValidationWeights.getD
    { nameLength := 0.25, descriptionComplexity := 0.25,
      priceValidation := 0.5 }
  let score := (if hasName then weights.nameLength else 0) +
    (if hasDescription then weights.descriptionComplexity else 0) +
    (if hasPrice then weights.priceValidation else 0)
  decide (score ≥ (match params.extractionQualityThreshold with
                   | none => (0.7 : ℚ)
                   | some v => if v = 0 then 0.7 else v))

/-- V6 `processAndValidateRegions(regions, pdf, params)`: for each region,
    request the thumbnail (an external effect modelled by the
    `extractImage` oracle; the source's `extractRegionImage` catches its
    own errors and yields `undefined`, modelled as `none`), validate with
    the heuristics, and keep validated regions with the thumbnail — and
    nothing else — attached. -/
def processAndValidateRegions (regions : List MenuRegion)
    (extractImage : MenuRegion → Option (List Char))
    (params : Phase2Params) : List MenuRegion :=
  match regions with
  | [] => []
  | region :: rest =>
    if validateRegionWithHeuristics region params then
      { region with regionImage := extractImage region } ::
        processAndValidateRegions rest extractImage params
    else processAndValidateRegions rest extractImage params

/-- The three-token region of the C6 scenario, passing every heuristic
    check, with confidence 0.8. -/
def c6Region : MenuRegion :=
  { items := [{ text := str "Pancakes" },
              { text := str "served with maple syrup" },
              { text := str "$8.99" }],
    confidence := 0.8 }

theorem c6Region_validates :
    validateRegionWithHeuristics c6Region { } = true := by
  have h1 : ((c6Region.items.map TextItem.text).any
      (fun t => decide (3 ≤ t.length) && decide (t.length ≤ 30))) = true := by
    decide
  have h2 : ((c6Region.items.map TextItem.text).any descriptionTest) =
      true := by decide
  have h3 : ((c6Region.items.map TextItem.text).any hasDollarPrice) =
      true := by decide
  simp only [validateRegionWithHeuristics, h1, h2, h3, Option.getD,
    if_true, decide_eq_true_eq]
  norm_num

/-- C6 counterexample: the claim asserts that a region whose thumbnail
    request fails is kept with its confidence MULTIPLIED BY a penalty
    factor such as 0.9; in the code the region is kept with its confidence
    UNCHANGED: processing the valid region `c6Region` (confidence 0.8) with
    an always-failing thumbnail oracle keeps it, thumbnail-less, at
    confidence 0.8 — and 0.8 ≠ 0.8 × 0.9, so no penalty of 0.9 (or of any
    factor other than 1) was applied. -/
theorem thumbnail_failure_counterexample :
    processAndValidateRegions [c6Region] (fun _ => none) { } =
      [{ c6Region with regionImage := none }] ∧
    (processAndValidateRegions [c6Region] (fun _ => none) { }).map
        MenuRegion.confidence = [0.8] ∧
    (0.8 : ℚ) ≠ 0.8 * 0.9 := by
  have hp : processAndValidateRegions [c6Region] (fun _ => none) { } =
      [{ c6Region with regionImage := none }] := by
    simp only [processAndValidateRegions, c6Region_validates, if_true]
  refine ⟨hp, ?_, by norm_num⟩
  rw [hp]
  rfl

/-- C6 (amended): thumbnail failure is recovered locally but WITHOUT any
    confidence penalty — the processed list is exactly the validated
    regions with the oracle's thumbnail result (possibly `none`) attached
    and every other field, the confidence in particular, unchanged. -/
theorem thumbnail_failure_amended :
    (∀ (regions : List MenuRegion)
        (extractImage : MenuRegion → Option (List Char))
        (params : Phase2Params),
      processAndValidateRegions regions extractImage params =
        (regions.filter
            (fun r => validateRegionWithHeuristics r params)).map
          (fun r => { r with regionImage := extractImage r })) ∧
    (∀ (regions : List MenuRegion)
        (extractImage : MenuRegion → Option (List Char))
        (params : Phase2Params) (r' : MenuRegion),
      r' ∈ processAndValidateRegions regions extractImage params →
      ∃ r ∈ regions, validateRegionWithHeuristics r params = true ∧
        r'.confidence = r.confidence ∧
        r'.regionImage = extractImage r) := by
  have hmain : ∀ (regions : List MenuRegion)
      (extractImage : MenuRegion → Option (List Char))
      (params : Phase2Params),
      processAndValidateRegions regions extractImage params =
        (regions.filter
            (fun r => validateRegionWithHeuristics r params)).map
          (fun r => { r with regionImage := extractImage r }) := by
    intro regions extractImage params
    induction regions with
    | nil => rfl
    | cons r rest ih =>
      simp only [processAndValidateRegions]
      by_cases hv : validateRegionWithHeuristics r params = true
      · rw [if_pos hv,
          List.filter_cons_of_pos (p := fun r => validateRegionWithHeuristics r params) hv,
          List.map_cons, ih]
      · rw [if_neg hv,
          List.filter_cons_of_neg (p := fun r => validateRegionWithHeuristics r params) (by simp [hv]),
          ih]
  refine ⟨hmain, ?_⟩
  intro regions extractImage params r' hr'
  rw [hmain] at hr'
  obtain ⟨r, hrmem, hrmap⟩ := List.mem_map.mp hr'
  have hrf := List.mem_filter.mp hrmem
  exact ⟨r, hrf.1, hrf.2, by rw [← hrmap], by rw [← hrmap]⟩

/-- Witness for C6 (amended) at the concrete region `c6Region` with an
    always-failing thumbnail oracle: the kept region has the original
    confidence 0.8 and no thumbnail. -/
theorem thumbnail_failure_amended_witness :
    ∃ r ∈ [c6Region], validateRegionWithHeuristics r { } = true ∧
      ({ c6Region with regionImage := none } : MenuRegion).confidence =
        r.confidence ∧
      ({ c6Region with regionImage := none } : MenuRegion).regionImage =
        (fun _ => (none : Option (List Char))) r :=
  thumbnail_failure_amended.2 [c6Region] (fun _ => none) { }
    { c6Region with regionImage := none }
    (by
      simp only [processAndValidateRegions, c6Region_validates, if_true]
      exact List.mem_cons_self _ _)

/-! ### Phase 3 deduplication and document-wide validation (V6) -/

/-- V6 deduplication key: the source key is the string
    `${item.name.toLowerCase()}_${item.price}` — the LOWERCASED name
    without trimming, qualified by the price.  Since the decimal rendering
    of a JavaScript number never contains an underscore, two such key
    strings are equal exactly when the lowercased names and the prices both
    agree, so the key is modelled as that pair. -/
def nameKeyV6 (it : MenuItem) : List Char × ℚ := (toLowerList it.name, it.price)

/-- The seen-set first-wins loop of V6 `deduplicateItems`, generic in the
    key function (the V5 loop `dedupByNameKey` above is the same shape with
    the lowercased-trimmed name as key). -/
def keyDedup {κ : Type} [DecidableEq κ] (key : MenuItem → κ) (seen : List κ) :
    List MenuItem → List MenuItem
  | [] => []
  | it :: rest =>
    if key it ∈ seen then keyDedup key seen rest
    else it :: keyDedup key (key it :: seen) rest

/-- V6 `deduplicateItems(items)`. -/
def deduplicateItemsV6 (items : List MenuItem) : List MenuItem :=
  keyDedup nameKeyV6 [] items

/-- V6 `validateMenuItemsWithHeuristics(items, params)` (the `params`
    argument is unused by the source body): deduplicate on the
    (lowercased name, price) key, then keep exactly the items whose price
    lies in (0, 200] and whose name length lies in [2, 100].  No mean or
    standard deviation is computed, and zero-priced items are dropped by
    the `item.price <= 0` test. -/
def validateMenuItemsWithHeuristicsV6 (items : List MenuItem) :
    List MenuItem :=
  (deduplicateItemsV6 items).filter (fun it =>
    if it.price ≤ 0 ∨ 200 < it.price then false
    else if it.name.length < 2 ∨ 100 < it.name.length then false
    else true)

/-- First-occurrence-wins deduplication on an arbitrary key, as an
    independent specification: keep the head, delete every later item
    sharing its key, recurse. -/
def specKeyDedup {κ : Type} [DecidableEq κ] (key : MenuItem → κ) :
    List MenuItem → List MenuItem
  | [] => []
  | it :: rest =>
    it :: specKeyDedup key (rest.filter (fun it2 => decide (key it2 ≠ key it)))
termination_by l => l.length
decreasing_by
  simp only [List.length_cons]
  exact Nat.lt_succ_of_le (List.length_filter_le _ _)

theorem keyDedup_cons {κ : Type} [DecidableEq κ] (key : MenuItem → κ)
    (seen : List κ) (it : MenuItem) (rest : List MenuItem) :
    keyDedup key seen (it :: rest) =
      if key it ∈ seen then keyDedup key seen rest
      else it :: keyDedup key (key it :: seen) rest := rfl

theorem keyDedup_cons_seen {κ : Type} [DecidableEq κ] (key : MenuItem → κ) :
    ∀ (n : ℕ) (items : List MenuItem), items.length ≤ n →
    ∀ (k : κ) (seen : List κ),
      keyDedup key (k :: seen) items =
        keyDedup key seen (items.filter
          (fun it2 => decide (key it2 ≠ k))) := by
  intro n
  induction n with
  | zero =>
    intro items hlen k seen
    have hnil : items = [] := List.eq_nil_of_length_eq_zero (Nat.le_zero.mp hlen)
    subst hnil
    rfl
  | succ n ih =>
    intro items hlen k seen
    cases items with
    | nil => rfl
    | cons it rest =>
      have hrest : rest.length ≤ n := by simpa using Nat.le_of_succ_le_succ hlen
      by_cases hk : key it = k
      · rw [keyDedup_cons,
          if_pos (by rw [hk]; exact List.mem_cons_self k seen),
          List.filter_cons_of_neg (by simp [hk]),
          ih rest hrest k seen]
      · rw [List.filter_cons_of_pos (by simp [hk])]
        by_cases hmem : key it ∈ seen
        · rw [keyDedup_cons, if_pos (List.mem_cons_of_mem k hmem),
            keyDedup_cons, if_pos hmem, ih rest hrest k seen]
        · have hnotin : key it ∉ k :: seen := by
            intro hin
            rcases List.mem_cons.mp hin with h | h
            · exact hk h
            · exact hmem h
          rw [keyDedup_cons, if_neg hnotin,
            keyDedup_cons, if_neg hmem]
          rw [ih rest hrest (key it) (k :: seen)]
          rw [ih (rest.filter
              (fun it2 => decide (key it2 ≠ key it)))
            (le_trans (List.length_filter_le _ _) hrest) k seen]
          rw [ih (rest.filter (fun it2 => decide (key it2 ≠ k)))
            (le_trans (List.length_filter_le _ _) hrest) (key it) seen]
          rw [List.filter_comm]

theorem keyDedup_eq_spec {κ : Type} [DecidableEq κ] (key : MenuItem → κ) :
    ∀ (n : ℕ) (items : List MenuItem), items.length ≤ n →
      keyDedup key [] items = specKeyDedup key items := by
  intro n
  induction n with
  | zero =>
    intro items hlen
    have hnil : items = [] := List.eq_nil_of_length_eq_zero (Nat.le_zero.mp hlen)
    subst hnil
    simp [specKeyDedup, keyDedup]
  | succ n ih =>
    intro items hlen
    cases items with
    | nil => simp [specKeyDedup, keyDedup]
    | cons it rest =>
      have hrest : rest.length ≤ n := by simpa using Nat.le_of_succ_le_succ hlen
      rw [keyDedup_cons, if_neg (List.not_mem_nil _),
        keyDedup_cons_seen key rest.length rest (le_refl _) (key it) [],
        ih (rest.filter (fun it2 => decide (key it2 ≠ key it)))
          (le_trans (List.length_filter_le _ _) hrest)]
      rw [specKeyDedup]

theorem keyDedup_fresh_pairwise {κ : Type} [DecidableEq κ]
    (key : MenuItem → κ) :
    ∀ (items : List MenuItem) (seen : List κ),
      (keyDedup key seen items).Pairwise (fun a b => key a ≠ key b) ∧
      ∀ b ∈ keyDedup key seen items, key b ∉ seen := by
  intro items
  induction items with
  | nil => intro seen; exact ⟨List.Pairwise.nil, by simp [keyDedup]⟩
  | cons it rest ih =>
    intro seen
    rw [keyDedup_cons]
    by_cases hmem : key it ∈ seen
    · rw [if_pos hmem]
      exact ih seen
    · rw [if_neg hmem]
      obtain ⟨hpw, hfresh⟩ := ih (key it :: seen)
      refine ⟨List.Pairwise.cons ?_ hpw, ?_⟩
      · intro b hb
        have := hfresh b hb
        intro heq
        exact this (heq ▸ List.mem_cons_self _ _)
      · intro b hb
        rcases List.mem_cons.mp hb with rfl | hb2
        · exact hmem
        · intro hin
          exact hfresh b hb2 (List.mem_cons_of_mem _ hin)

theorem keyDedup_of_fresh {κ : Type} [DecidableEq κ] (key : MenuItem → κ) :
    ∀ (items : List MenuItem) (seen : List κ),
      items.Pairwise (fun a b => key a ≠ key b) →
      (∀ it ∈ items, key it ∉ seen) →
      keyDedup key seen items = items := by
  intro items
  induction items with
  | nil => intro seen _ _; rfl
  | cons it rest ih =>
    intro seen hpw hfresh
    rw [keyDedup_cons, if_neg (hfresh it (List.mem_cons_self _ _))]
    congr 1
    refine ih _ (List.pairwise_cons.mp hpw).2 ?_
    intro b hb hin
    rcases List.mem_cons.mp hin with h | h
    · exact (List.pairwise_cons.mp hpw).1 b hb h.symm
    · exact hfresh b (List.mem_cons_of_mem _ hb) h

/-- Two items with the same name but different prices, for the V6
    deduplication behaviour: the (lowercased name, price) key separates
    them, so both survive although their lowercased-trimmed names agree. -/
def c2TeaA : MenuItem := { name := str "Tea", price := 3, confidence := 0.4 }

/-- Same name as `c2TeaA`, different price, higher confidence. -/
def c2TeaB : MenuItem := { name := str "Tea", price := 4, confidence := 0.9 }

/-- C2 (amended): both cited deduplications are first-wins seen-set loops,
    but their keys differ by version.  V5 keys on the LOWERCASED, TRIMMED
    name (not a whitespace-collapsing normalization): the loop equals the
    keep-first-occurrence specification and the output never contains two
    items sharing a lowercased-trimmed name, with the FIRST item kept on a
    collision regardless of confidence.  V6 keys on the pair (lowercased
    UNTRIMMED name, price): the loop equals the keep-first-occurrence
    specification on that pair and the output never contains two items
    agreeing on both lowercased name and price — so two items with the same
    name but different prices BOTH survive V6 deduplication, as the
    concrete `Tea` pair shows. -/
theorem dedup_first_wins_amended :
    (∀ items : List MenuItem,
      deduplicateItemsV5 items = specDedupFirstWins items) ∧
    (∀ items : List MenuItem,
      (deduplicateItemsV5 items).Pairwise
        (fun a b => nameKeyV5 a.name ≠ nameKeyV5 b.name)) ∧
    (∀ items : List MenuItem,
      deduplicateItemsV6 items = specKeyDedup nameKeyV6 items) ∧
    (∀ items : List MenuItem,
      (deduplicateItemsV6 items).Pairwise
        (fun a b => nameKeyV6 a ≠ nameKeyV6 b)) ∧
    (deduplicateItemsV6 [c2TeaA, c2TeaB] = [c2TeaA, c2TeaB] ∧
      nameKeyV5 c2TeaA.name = nameKeyV5 c2TeaB.name ∧
      c2TeaA.price ≠ c2TeaB.price) := by
  refine ⟨fun items => dedupByNameKey_eq_spec items.length items (le_refl _),
    fun items => (dedupByNameKey_fresh_pairwise items []).1,
    fun items => keyDedup_eq_spec nameKeyV6 items.length items (le_refl _),
    fun items => (keyDedup_fresh_pairwise nameKeyV6 items []).1,
    ?_, by decide, by norm_num [c2TeaA, c2TeaB]⟩
  have hne : nameKeyV6 c2TeaB ∉ [nameKeyV6 c2TeaA] := by
    intro hmem
    have heq := List.mem_singleton.mp hmem
    have h2 := congrArg Prod.snd heq
    simp only [nameKeyV6] at h2
    norm_num [c2TeaA, c2TeaB] at h2
  unfold deduplicateItemsV6
  rw [keyDedup_cons, if_neg (List.not_mem_nil _), keyDedup_cons, if_neg hne]
  rfl

/-- C1 (amended): the document-wide price validation deduplicates first and
    then filters, but the price rule is version-specific.  V5
    `validateMenuItemsWithHeuristics`, whenever at least one positive price
    exists after name-deduplication, keeps exactly the items whose price is
    0 or strictly below THREE TIMES THE MEAN of the positive prices (no
    standard deviation is involved; zero-priced items are kept).  V6
    `validateMenuItemsWithHeuristics` computes no mean at all: after its
    (name, price)-keyed deduplication it keeps exactly the items with
    price in the fixed window (0, 200] and name length in [2, 100], so
    zero-priced items are DROPPED.  In Scenario E (29 items at $10, one at
    $500) the $500 item is dropped and the 29 remain under BOTH versions:
    in V5 because 500 >= 3 x mean ~ 79, in V6 because 500 > 200. -/
theorem price_distribution_amended :
    (∀ (items : List MenuItem) (it : MenuItem),
      it ∈ validateMenuItemsWithHeuristicsV5 items ↔
        it ∈ dedupByNameKey [] items ∧
          (((dedupByNameKey [] items).map MenuItem.price).filter
              (fun p => decide (0 < p)) = [] ∨
            it.price = 0 ∨
            it.price <
              (((dedupByNameKey [] items).map MenuItem.price).filter
                  (fun p => decide (0 < p))).sum /
                (((dedupByNameKey [] items).map MenuItem.price).filter
                  (fun p => decide (0 < p))).length * 3)) ∧
    validateMenuItemsWithHeuristicsV5 scenarioEInput = scenarioEKept ∧
    (∀ (items : List MenuItem) (it : MenuItem),
      it ∈ validateMenuItemsWithHeuristicsV6 items ↔
        it ∈ deduplicateItemsV6 items ∧ 0 < it.price ∧ it.price ≤ 200 ∧
          2 ≤ it.name.length ∧ it.name.length ≤ 100) ∧
    validateMenuItemsWithHeuristicsV6 scenarioEInput = scenarioEKept := by
  refine ⟨?_, ?_, ?_, ?_⟩
  · intro items it
    simp only [validateMenuItemsWithHeuristicsV5]
    set P := ((dedupByNameKey [] items).map MenuItem.price).filter
      (fun p => decide (0 < p)) with hP
    by_cases hlen : 0 < P.length
    · rw [if_pos hlen, List.mem_filter]
      have hne : P ≠ [] := by
        intro h0
        rw [h0] at hlen
        simp at hlen
      constructor
      · rintro ⟨hmem, hcond⟩
        refine ⟨hmem, ?_⟩
        by_cases hz : it.price = 0
        · exact Or.inr (Or.inl hz)
        · rw [if_neg hz] at hcond
          exact Or.inr (Or.inr (of_decide_eq_true hcond))
      · rintro ⟨hmem, hcond⟩
        refine ⟨hmem, ?_⟩
        rcases hcond with hnil | hz | hlt
        · exact absurd hnil hne
        · rw [if_pos hz]
        · by_cases hz : it.price = 0
          · rw [if_pos hz]
          · rw [if_neg hz]
            exact decide_eq_true hlt
    · rw [if_neg hlen]
      have hnil : P = [] := by
        cases hcase : P with
        | nil => rfl
        | cons a l =>
          rw [hcase] at hlen
          simp at hlen
      exact ⟨fun h => ⟨h, Or.inl hnil⟩, fun h => h.1⟩
  · have hd : dedupByNameKey [] scenarioEInput = scenarioEInput :=
      dedupByNameKey_of_fresh scenarioEInput [] (by decide)
        (fun it _ => List.not_mem_nil _)
    simp only [validateMenuItemsWithHeuristicsV5, hd]
    norm_num [scenarioEInput, scenarioEKept, List.filter_cons,
      List.sum_cons, decide_eq_true_eq]
  · intro items it
    simp only [validateMenuItemsWithHeuristicsV6, List.mem_filter]
    constructor
    · rintro ⟨hm, hp⟩
      refine ⟨hm, ?_⟩
      split_ifs at hp with h1 h2
      push_neg at h1 h2
      exact ⟨h1.1, h1.2, h2.1, h2.2⟩
    · rintro ⟨hm, hp0, hp200, hn2, hn100⟩
      refine ⟨hm, ?_⟩
      rw [if_neg (by push_neg; exact ⟨hp0, hp200⟩),
        if_neg (by push_neg; exact ⟨hn2, hn100⟩)]
  · have hpairN : scenarioEInput.Pairwise
        (fun a b => toLowerList a.name ≠ toLowerList b.name) := by decide
    have hpair : scenarioEInput.Pairwise
        (fun a b => nameKeyV6 a ≠ nameKeyV6 b) :=
      hpairN.imp (fun h heq => h (congrArg Prod.fst heq))
    have hd : deduplicateItemsV6 scenarioEInput = scenarioEInput :=
      keyDedup_of_fresh nameKeyV6 scenarioEInput [] hpair
        (fun it _ => List.not_mem_nil _)
    simp only [validateMenuItemsWithHeuristicsV6, hd]
    norm_num [scenarioEInput, scenarioEKept, List.filter_cons,
    show (str "e1").length = 2 from by decide,
    show (str "e2").length = 2 from by decide,
    show (str "e3").length = 2 from by decide,
    show (str "e4").length = 2 from by decide,
    show (str "e5").length = 2 from by decide,
    show (str "e6").length = 2 from by decide,
    show (str "e7").length = 2 from by decide,
    show (str "e8").length = 2 from by decide,
    show (str "e9").length = 2 from by decide,
    show (str "e10").length = 3 from by decide,
    show (str "e11").length = 3 from by decide,
    show (str "e12").length = 3 from by decide,
    show (str "e13").length = 3 from by decide,
    show (str "e14").length = 3 from by decide,
    show (str "e15").length = 3 from by decide,
    show (str "e16").length = 3 from by decide,
    show (str "e17").length = 3 from by decide,
    show (str "e18").length = 3 from by decide,
    show (str "e19").length = 3 from by decide,
    show (str "e20").length = 3 from by decide,
    show (str "e21").length = 3 from by decide,
    show (str "e22").length = 3 from by decide,
    show (str "e23").length = 3 from by decide,
    show (str "e24").length = 3 from by decide,
    show (str "e25").length = 3 from by decide,
    show (str "e26").length = 3 from by decide,
    show (str "e27").length = 3 from by decide,
    show (str "e28").length = 3 from by decide,
    show (str "e29").length = 3 from by decide,
    show (str "truffle").length = 7 from by decide]

/-- C4 (amended): both cited classifiers are ordered first-match-wins
    cascades with fixed confidences, but their rules differ by version.
    V5: a currency-FORMAT number (anchored regex) STRICTLY between 0.5 and
    200 (open interval) is Price with confidence 0.9; a number in
    [100, 2000] whose text carries a calorie-word suffix (`cal` suffices)
    is Calorie with 0.85; Price arises only from the first rule's exact
    condition.  V6: a number whose text merely CONTAINS a dollar sign, with
    value in the CLOSED interval [1, 100], is Price with confidence 0.9
    (so $150 is NOT Price in V6); when that rule fails, a number in
    [50, 2000] whose lowercased text contains the full word `calorie` is
    Calorie with 0.85 — the bare suffix `cal` does not reach the calorie
    rule and `150 cal` instead classifies as a measurement via the `l`
    unit substring; V6 Price likewise arises only from its first rule's
    exact condition. -/
theorem classifyNumber_cascade_amended :
    (∀ (v : ℚ) (t : List Char) (it : TextItem),
        currencyFormatTest t = true → 1/2 < v → v < 200 →
        (classifyNumberV5 v t it).type = NumType.price ∧
          (classifyNumberV5 v t it).confidence = 0.9) ∧
    (∀ (v : ℚ) (t : List Char) (it : TextItem),
        containsSub (str "cal") t = true → 100 ≤ v → v ≤ 2000 →
        (classifyNumberV5 v t it).type = NumType.calorie ∧
          (classifyNumberV5 v t it).confidence = 0.85) ∧
    (∀ (v : ℚ) (t : List Char) (it : TextItem),
        (classifyNumberV5 v t it).type = NumType.price →
        currencyFormatTest t = true ∧ 1/2 < v ∧ v < 200) ∧
    (∀ (v : ℚ) (t : List Char) (it : TextItem),
        containsSub (str "$") t = true → 1 ≤ v → v ≤ 100 →
        (classifyNumberV6 v t it).type = NumType.price ∧
          (classifyNumberV6 v t it).confidence = 0.9) ∧
    (∀ (v : ℚ) (t : List Char) (it : TextItem),
        ¬(containsSub (str "$") t = true ∧ 1 ≤ v ∧ v ≤ 100) →
        containsSub (str "calorie") (toLowerList t) = true →
        50 ≤ v → v ≤ 2000 →
        (classifyNumberV6 v t it).type = NumType.calorie ∧
          (classifyNumberV6 v t it).confidence = 0.85) ∧
    (∀ (v : ℚ) (t : List Char) (it : TextItem),
        (classifyNumberV6 v t it).type = NumType.price →
        containsSub (str "$") t = true ∧ 1 ≤ v ∧ v ≤ 100) ∧
    ((classifyNumberV6 150 (str "$150") dummyItem).type ≠ NumType.price ∧
      (classifyNumberV6 150 (str "150 cal") dummyItem).type =
        NumType.measurement) := by
  have hexcl : ∀ (v : ℚ) (t : List Char) (it : TextItem),
      (classifyNumberV6 v t it).type = NumType.price →
      containsSub (str "$") t = true ∧ 1 ≤ v ∧ v ≤ 100 := by
    intro v t it h
    unfold classifyNumberV6 at h
    split_ifs at h with h1 h2 h3 h4 h5
    exact h1
  refine ⟨?_, ?_, ?_, ?_, ?_, hexcl, ?_, ?_⟩
  · intro v t it h1 h2 h3
    unfold classifyNumberV5
    rw [if_pos ⟨h1, h2, h3⟩]
    exact ⟨rfl, rfl⟩
  · intro v t it h1 h2 h3
    have hcf : currencyFormatTest t = false := cal_not_currencyFormat h1
    unfold classifyNumberV5
    rw [if_neg (by simp [hcf]), if_pos ⟨h2, h3, Or.inl h1⟩]
    exact ⟨rfl, rfl⟩
  · intro v t it h
    unfold classifyNumberV5 at h
    split_ifs at h with h1 h2 h3 h4 h5
    exact h1
  · intro v t it h1 h2 h3
    unfold classifyNumberV6
    rw [if_pos ⟨h1, h2, h3⟩]
    exact ⟨rfl, rfl⟩
  · intro v t it hnot h1 h2 h3
    unfold classifyNumberV6
    rw [if_neg hnot, if_pos ⟨h1, h2, h3⟩]
    exact ⟨rfl, rfl⟩
  · intro hp
    exact absurd (hexcl 150 (str "$150") dummyItem hp).2.2 (by norm_num)
  · have hnd : containsSub (str "$") (str "150 cal") = false := by decide
    have hnc : containsSub (str "calorie")
        (toLowerList (str "150 cal")) = false := by decide
    have hm : measUnitsV6.any
        (fun u => containsSub u (toLowerList (str "150 cal"))) = true := by
      decide
    unfold classifyNumberV6
    rw [if_neg (by simp [hnd]), if_neg (by simp [hnc]), if_pos hm]

/-- Witness for C4 (amended) at concrete inputs: in V5, `$24.95`
    (value 24.95) is Price with 0.9 and `500 cal` (value 500) is Calorie
    with 0.85, the Price classification certifying the first rule's exact
    condition; in V6, `$50` (value 50) is Price with 0.9 and
    `200 calories` (value 200) is Calorie with 0.85, the V6 Price
    classification certifying the V6 first rule's exact condition. -/
theorem classifyNumber_cascade_amended_witness :
    ((classifyNumberV5 (499/20) (str "$24.95") dummyItem).type = NumType.price ∧
      (classifyNumberV5 (499/20) (str "$24.95") dummyItem).confidence = 0.9) ∧
    ((classifyNumberV5 500 (str "500 cal") dummyItem).type = NumType.calorie ∧
      (classifyNumberV5 500 (str "500 cal") dummyItem).confidence = 0.85) ∧
    (currencyFormatTest (str "$24.95") = true ∧
      (1/2 : ℚ) < 499/20 ∧ (499/20 : ℚ) < 200) ∧
    ((classifyNumberV6 50 (str "$50") dummyItem).type = NumType.price ∧
      (classifyNumberV6 50 (str "$50") dummyItem).confidence = 0.9) ∧
    ((classifyNumberV6 200 (str "200 calories") dummyItem).type =
        NumType.calorie ∧
      (classifyNumberV6 200 (str "200 calories") dummyItem).confidence =
        0.85) ∧
    (containsSub (str "$") (str "$50") = true ∧
      (1 : ℚ) ≤ 50 ∧ (50 : ℚ) ≤ 100) :=
  ⟨classifyNumber_cascade_amended.1 (499/20) (str "$24.95") dummyItem
      (by decide) (by norm_num) (by norm_num),
   classifyNumber_cascade_amended.2.1 500 (str "500 cal") dummyItem
      (by decide) (by norm_num) (by norm_num),
   classifyNumber_cascade_amended.2.2.1 (499/20) (str "$24.95") dummyItem
     (classifyNumber_cascade_amended.1 (499/20) (str "$24.95") dummyItem
        (by decide) (by norm_num) (by norm_num)).1,
   classifyNumber_cascade_amended.2.2.2.1 50 (str "$50") dummyItem
      (by decide) (by norm_num) (by norm_num),
   classifyNumber_cascade_amended.2.2.2.2.1 200 (str "200 calories") dummyItem
      (by
        intro hc
        rw [show containsSub (str "$") (str "200 calories") = false from
          by decide] at hc
        exact Bool.false_ne_true hc.1)
      (by decide) (by norm_num) (by norm_num),
   classifyNumber_cascade_amended.2.2.2.2.2.1 50 (str "$50") dummyItem
     (classifyNumber_cascade_amended.2.2.2.1 50 (str "$50") dummyItem
        (by decide) (by norm_num) (by norm_num)).1⟩
